import Mathlib

/-!
# Shallow embedding of `revised_algorithm.py` (DynamicMultiLaneTrafficController)

Modelling conventions:
* Python `float` values (times, durations, rates) are modelled as `ℚ`;
  all arithmetic performed on them in the source is exact on the values
  the program produces, so `ℚ` is a faithful carrier.
* Python `int` counters are modelled as `Int` (they may go negative,
  since the source performs no validation).
* Python `dict`s are association lists with first-key-wins lookup and
  insertion-order iteration, matching `dict` semantics (keys are unique
  along every execution; updates preserve position).
* A Python statement that can raise (`KeyError` on a missing dict key,
  `ValueError` from `max` on an empty sequence) is modelled by an
  `Option`-valued function returning `none` in exactly those situations.
* `time.time()` is modelled by an explicit `now : ℚ` parameter (the spec
  mandates clock injection); within one call all reads of the clock are
  identified, which does not affect any property stated here.
* `random.randint(0, 3)` is modelled by an injected stream
  `rng : Nat → Nat`, the `i`-th draw being `rng i % 4`; every execution
  of the source corresponds to some stream and conversely.
-/

namespace Traffic

/-- The fixed movement set `["straight", "left", "right"]`. -/
inductive Mov : Type
  | straight
  | left
  | right
deriving DecidableEq, Repr

/-- `self.movements = ["straight", "left", "right"]` (fixed iteration order). -/
def movements : List Mov := [Mov.straight, Mov.left, Mov.right]

/-- A MovementKey `(lane_id, movement)`. -/
abbrev Key := String × Mov

/-- One inner record `{"normal": _, "emergency": _, "wait": _, "state": [_,_,_]}`. -/
structure Cell where
  normal : Int
  emergency : Int
  wait : Int
  state : List Nat
deriving Repr

/-- Per-lane data: the inner dict always holds exactly the three movements. -/
abbrev LaneData := Mov → Cell

/-- An entry of the `flat` working dict `{"normal": _, "emergency": _, "wait": _}`. -/
structure FlatCell where
  normal : Int
  emergency : Int
  wait : Int
deriving Repr, DecidableEq

/-- The `flat` working dict keyed by MovementKey. -/
abbrev Flat := List (Key × FlatCell)

/-- An ambulance record `{"id", "lane", "mov", "eta", "detected_at"}`. -/
structure Amb where
  id : String
  lane : String
  mov : Mov
  eta : ℚ
  detected_at : ℚ
deriving Repr, DecidableEq

/-- A planned job `{"amb", "mov", "dest", "t_a", "t_s", "G", "start"}`;
`start` is filled in during scheduling (it is only read after being set). -/
structure Job where
  amb : Amb
  mov : Key
  dest : String
  t_a : ℚ
  t_s : ℚ
  G : ℚ
  start : ℚ
deriving Repr, DecidableEq

/-- The controller state: every attribute set in `__init__` except `debug`
(debug printing is I/O only and has no effect on the state). -/
structure Controller where
  lanes : List (String × LaneData)
  exit_capacity : List (String × Int)
  turn_map : List (Key × String)
  conflicts : List (Key × List Key)
  min_green : ℚ
  max_green : ℚ
  clearance_rate : ℚ
  exit_capacity_default : Int
  wait_boost : ℚ
  starvation_limit : Int
  ambulance_safety_margin : ℚ
  reaction_margin : ℚ
  ambulances : List Amb
  planned_ambulance_jobs : List Job
  current_green : Option (String × List Key)
  green_started_at : ℚ
  current_green_time : ℚ
  last_emergency_lane : Option String

/-- Association-list lookup: first matching key wins (Python dict lookup). -/
def alook {α β : Type} [DecidableEq α] : List (α × β) → α → Option β
  | [], _ => none
  | (a, b) :: t, x => if x = a then some b else alook t x

/-- Dict update at a present key (preserves position); on every call site the
key has just been looked up successfully, as in the source. -/
def aset {α β : Type} [DecidableEq α] (l : List (α × β)) (x : α) (f : β → β) :
    List (α × β) :=
  l.map (fun p => if p.1 = x then (p.1, f p.2) else p)

/-- Dict upsert: overwrite in place when present, else append (Python dict
assignment `d[k] = v`). -/
def aput {α β : Type} [DecidableEq α] (l : List (α × β)) (x : α) (v : β) :
    List (α × β) :=
  if (alook l x).isSome then aset l x (fun _ => v) else l ++ [(x, v)]

/-- Update one movement of a `LaneData`. -/
def updMov (ld : LaneData) (m : Mov) (f : Cell → Cell) : LaneData :=
  fun m' => if m' = m then f (ld m') else ld m'

/-- `self.lanes[lane][mov] = f(...)` given the lane is present. -/
def setCell (s : Controller) (lane : String) (m : Mov) (f : Cell → Cell) :
    Controller :=
  { s with lanes := aset s.lanes lane (fun ld => updMov ld m f) }

/-- `int(q)` for Python: truncation toward zero. -/
def pyInt (q : ℚ) : Int := if 0 ≤ q then ⌊q⌋ else -⌊-q⌋

/-- `max(xs)` for a nonempty list prefixed by a first element (Python `max`
keeps the first of equal elements; on values only, that is the plain max). -/
def listMax (x : ℚ) (xs : List ℚ) : ℚ := xs.foldl max x

/-- A fresh `DynamicMultiLaneTrafficController()` with the default
configuration (`0.4 = 2/5`, `1.5 = 3/2`, `0.5 = 1/2`). -/
def initController : Controller where
  lanes := []
  exit_capacity := []
  turn_map := []
  conflicts := []
  min_green := 3
  max_green := 15
  clearance_rate := 3
  exit_capacity_default := 20
  wait_boost := 2/5
  starvation_limit := 8
  ambulance_safety_margin := 3/2
  reaction_margin := 1/2
  ambulances := []
  planned_ambulance_jobs := []
  current_green := none
  green_started_at := 0
  current_green_time := 3
  last_emergency_lane := none

/-- `ensure_lane`: idempotent insertion with all-zero counts and RED lights. -/
def ensure_lane (s : Controller) (lane_id : String) : Controller :=
  if (alook s.lanes lane_id).isSome then s
  else
    { s with
      lanes := s.lanes ++ [(lane_id, fun _ => ⟨0, 0, 0, [1, 0, 0]⟩)]
      exit_capacity := s.exit_capacity ++ [(lane_id, s.exit_capacity_default)] }

/-- `rebuild_turn_map`: destinations by index arithmetic over the lane order.
The source overwrites every key of the (monotone) lane set in place; since
lanes are never removed, that equals recomputing the table. -/
def rebuild_turn_map (s : Controller) : Controller :=
  let lane_ids := s.lanes.map (fun p => p.1)
  let n := lane_ids.length
  let tm := (List.range n).flatMap (fun i =>
    let lane := lane_ids.getD i ""
    let opposite := if n > 1 then lane_ids.getD ((i + n / 2) % n) "" else lane
    let left := if n > 1 then lane_ids.getD ((i + n - 1) % n) "" else lane
    let right := if n > 1 then lane_ids.getD ((i + 1) % n) "" else lane
    [((lane, Mov.straight), opposite), ((lane, Mov.left), left),
     ((lane, Mov.right), right)])
  { s with turn_map := tm }

/-- The conflict list of one key: same-lane other movements, then every other
key sharing its destination (read from the current `turn_map`). -/
def conflict_list (s : Controller) (lane_ids : List String) (key : Key) :
    List Key :=
  let same := (movements.filter (fun m2 => m2 ≠ key.2)).map (fun m2 => (key.1, m2))
  let shared :=
    match alook s.turn_map key with
    | none => []
    | some dest =>
        lane_ids.flatMap (fun lane2 =>
          movements.filterMap (fun mov2 =>
            if (lane2, mov2) ≠ key ∧ alook s.turn_map (lane2, mov2) = some dest
            then some (lane2, mov2) else none))
  same ++ shared

/-- `rebuild_conflicts`: the table is cleared and rebuilt for every key. -/
def rebuild_conflicts (s : Controller) : Controller :=
  let lane_ids := s.lanes.map (fun p => p.1)
  { s with
    conflicts := lane_ids.flatMap (fun lane =>
      movements.map (fun mov => ((lane, mov), conflict_list s lane_ids (lane, mov)))) }

/-- `self.conflicts.get(k, [])`. -/
def conflictsGet (s : Controller) (k : Key) : List Key :=
  (alook s.conflicts k).getD []

/-- `register_ambulance`: drop any prior entry with the same id, append the
new record with `eta = now + eta_seconds`.  Note: the source does *not*
touch the lane set here. -/
def register_ambulance (s : Controller) (amb_id lane : String) (mov : Mov)
    (eta_seconds now : ℚ) : Controller :=
  { s with
    ambulances :=
      (s.ambulances.filter (fun a => a.id ≠ amb_id)) ++
        [⟨amb_id, lane, mov, now + eta_seconds, now⟩] }

/-- `exit_blocked(lane)`: total queue of the lane against `capacity - 2`
(the `margin` parameter defaults to 2 and is never overridden).
`none` models the `KeyError` on an unknown lane. -/
def exit_blocked (s : Controller) (lane : String) : Option Bool := do
  let ld ← alook s.lanes lane
  let cap ← alook s.exit_capacity lane
  let q := movements.foldl (fun acc m => acc + (ld m).normal + (ld m).emergency) 0
  some (decide (cap - 2 ≤ q))

/-- `movements_compatible`: the `or` of the two `exit_blocked` calls
short-circuits exactly as in Python. -/
def movements_compatible (s : Controller) (m1 m2 : Key) : Option Bool :=
  if m1 = m2 then some false
  else if m2 ∈ conflictsGet s m1 then some false
  else if m1 ∈ conflictsGet s m2 then some false
  else
    match alook s.turn_map m1, alook s.turn_map m2 with
    | some dest1, some dest2 =>
        match exit_blocked s dest1 with
        | none => none
        | some true => some false
        | some false => (exit_blocked s dest2).map (fun b2 => !b2)
    | _, _ => some false

/-- `compute_preclear_time(dest_lane)`; `1e-6 = 1/1000000`. -/
def compute_preclear_time (s : Controller) (dest_lane : String) : Option ℚ := do
  let ld ← alook s.lanes dest_lane
  let q := movements.foldl (fun acc m => acc + (ld m).normal + (ld m).emergency) 0
  let base := (q : ℚ) / max (1 / 1000000) s.clearance_rate
  some (max s.min_green (min s.max_green (base + s.ambulance_safety_margin)))

/-- The conflict scan of `plan_ambulances` (loop with early break at the
first overlapping incompatible scheduled job). -/
def hasConflict (s : Controller) : List Job → Job → Option Bool
  | [], _ => some false
  | sj :: rest, job =>
      if ¬(job.t_s + job.G ≤ sj.start ∨ sj.start + sj.G ≤ job.t_s) then do
        let c ← movements_compatible s job.mov sj.mov
        if c then hasConflict s rest job else some true
      else hasConflict s rest job

/-- `plan_ambulances(now)`: build jobs (dropping ambulances without a
destination), sort by `t_a` (stable, as Python's sort), then schedule. -/
def plan_ambulances (s : Controller) (now : ℚ) : Option Controller := do
  let jobs ← s.ambulances.foldlM (fun acc amb =>
    match alook s.turn_map (amb.lane, amb.mov) with
    | none => some acc
    | some dest => do
        let g ← compute_preclear_time s dest
        some (acc ++ [⟨amb, (amb.lane, amb.mov), dest, amb.eta, amb.eta - g, g, 0⟩]))
    ([] : List Job)
  let sorted := List.insertionSort (fun a b : Job => a.t_a ≤ b.t_a) jobs
  let scheduled ← sorted.foldlM (fun sched job => do
    if job.t_s ≤ now + s.reaction_margin then
      some (sched ++ [{ job with start := now }])
    else do
      let c ← hasConflict s sched job
      if c then some (sched ++ [{ job with start := now }])
      else some (sched ++ [{ job with start := job.t_s }]))
    ([] : List Job)
  some { s with planned_ambulance_jobs := scheduled }

/-- `all(self.movements_compatible(mv, g) for g in greens)` with Python's
short-circuit evaluation. -/
def allCompat (s : Controller) (k : Key) : List Key → Option Bool
  | [] => some true
  | g :: gs => do
      let b ← movements_compatible s k g
      if b then allCompat s k gs else some false

/-- The greedy green-set builder of `apply_ambulance_policy`. -/
def buildGreens (s : Controller) : List Job → List Key → Option (List Key)
  | [], acc => some acc
  | j :: rest, acc => do
      let ok ← allCompat s j.mov acc
      buildGreens s rest (if ok then acc ++ [j.mov] else acc)

/-- Set one light GREEN (`none` models the `KeyError` on an unknown lane). -/
def greenStep (t : Controller) (k : Key) : Option Controller := do
  let _ ← alook t.lanes k.1
  some (setCell t k.1 k.2 (fun c => { c with state := [0, 0, 1] }))

/-- Set every light RED, then GREEN on the listed keys. -/
def setLightsChosen (s : Controller) (ks : List Key) : Option Controller :=
  let sR : Controller :=
    { s with lanes := s.lanes.map (fun p =>
        (p.1, fun m => { p.2 m with state := [1, 0, 0] })) }
  ks.foldlM greenStep sR

/-- The running/imminent job list of `apply_ambulance_policy`, sorted by
`t_a` (stably, as Python's in-place sort).  The source tests emptiness
before sorting; sorting preserves emptiness, so testing after is
equivalent. -/
def ambRunning (s : Controller) (now : ℚ) : List Job :=
  let jobs := s.planned_ambulance_jobs
  let running0 := jobs.filter (fun j => decide (j.start ≤ now) &&
    decide (now ≤ j.start + j.G))
  let running1 :=
    if running0.isEmpty then
      jobs.filter (fun j => decide (j.start ≤ now + s.reaction_margin))
    else running0
  List.insertionSort (fun a b : Job => a.t_a ≤ b.t_a) running1

/-- `apply_ambulance_policy(now)`. -/
def apply_ambulance_policy (s : Controller) (now : ℚ) :
    Option (Bool × Controller) :=
  match ambRunning s now with
  | [] => some (false, s)
  | r0 :: rs => do
      let greens0 ← buildGreens s (r0 :: rs) []
      let greens := if greens0.isEmpty then [r0.mov] else greens0
      let s' ← setLightsChosen s greens
      let selected := (r0 :: rs).filter (fun j => j.mov ∈ greens)
      let gt :=
        match selected.map (fun j => j.G) with
        | [] => s.min_green
        | g :: gs => listMax g gs
      some (true,
        { s' with
          current_green := some ("ambulance_multi", greens)
          green_started_at := now
          current_green_time := gt })

/-- The round-robin scan of `choose_emergency_movement`. -/
def findRR (lane_order : List String) (start : Nat) (tied : List Key) :
    Option Key :=
  (List.range lane_order.length).findSome? (fun i =>
    let lane := lane_order.getD ((start + i) % lane_order.length) ""
    movements.findSome? (fun mv =>
      if (lane, mv) ∈ tied then some (lane, mv) else none))

/-- `choose_emergency_movement(flat)`: returns the chosen key (if any) and
the new value of `self.last_emergency_lane` (which the source writes only
on the tie-break path, leaving it unchanged otherwise). -/
def choose_emergency_movement (s : Controller) (flat : Flat) :
    Option Key × Option String :=
  let pairs := flat.filter (fun p => 0 < p.2.emergency)
  match pairs with
  | [] => (none, s.last_emergency_lane)
  | p0 :: ps =>
      let max_count := (ps.map (fun p => p.2.emergency)).foldl max p0.2.emergency
      let tied := (pairs.filter (fun p => p.2.emergency = max_count)).map (fun p => p.1)
      match tied with
      | [] => (none, s.last_emergency_lane)
      | [t] => (some t, s.last_emergency_lane)
      | t0 :: _ :: _ =>
          let lane_order := s.lanes.map (fun p => p.1)
          let start :=
            match s.last_emergency_lane with
            | some last =>
                if last ∈ lane_order then
                  ((lane_order.indexOf last) + 1) % lane_order.length
                else 0
            | none => 0
          let chosen := (findRR lane_order start tied).getD t0
          (some chosen, some chosen.1)

/-- The score of one key in `choose_normal_movement`
(`-1e9 = -1000000000`, `wait_boost` weighting, starvation bonus). -/
def scoreKey (s : Controller) (flat : Flat) (k : Key) : Option ℚ := do
  let n := ((alook flat k).map (fun c => c.normal)).getD 0
  let w := ((alook flat k).map (fun c => c.wait)).getD 0
  let dest := (alook s.turn_map k).getD k.1
  let b ← exit_blocked s dest
  if b then some (-1000000000)
  else some ((n : ℚ) * (1 + (w : ℚ) * s.wait_boost) +
    (if s.starvation_limit ≤ w then 10000 else 0))

/-- Iteration order of `self.lanes` × `self.movements` (dict insertion order). -/
def allKeys (s : Controller) : List Key :=
  s.lanes.flatMap (fun p => movements.map (fun m => (p.1, m)))

/-- `choose_normal_movement(flat)`: `max(scores, key=scores.get)` returns the
first key attaining the maximum; `none` models the `ValueError` of `max`
on an empty dict (no lanes). -/
def choose_normal_movement (s : Controller) (flat : Flat) : Option Key := do
  let scored ← (allKeys s).mapM (fun k => (scoreKey s flat k).map (fun v => (k, v)))
  match scored with
  | [] => none
  | x :: xs =>
      some (xs.foldl (fun best p => if best.2 < p.2 then p else best) x).1

/-- `calculate_green_for_movement`: `0.8 = 4/5`, `2.0 = 2`, clamped. -/
def calculate_green_for_movement (s : Controller) (lane : String) (mov : Mov) :
    Option ℚ := do
  let ld ← alook s.lanes lane
  let base := ((ld mov).normal : ℚ) * (4/5) + ((ld mov).emergency : ℚ) * 2
  some (max s.min_green (min base s.max_green))

/-- Write the `normal` field of a present `flat` key. -/
def setFlatNormal (data : Flat) (k : Key) (v : Int) : Flat :=
  aset data k (fun c => { c with normal := v })

/-- `sum(data[(dest, m)]["normal"] + data[(dest, m)]["emergency"] ...)`;
`none` models the `KeyError` on a missing movement of `dest`. -/
def destQ (data : Flat) (dest : String) : Option Int :=
  movements.foldlM (fun acc m =>
    (alook data (dest, m)).map (fun c => acc + c.normal + c.emergency)) 0

/-- One iteration of the first loop of `simulate_flow` for an active key. -/
def flowStep (s : Controller) (green_time : ℚ) (data : Flat) (k : Key) :
    Option Flat := do
  let c ← alook data k
  let cleared := min c.normal (pyInt (s.clearance_rate * green_time))
  let data1 := setFlatNormal data k (max 0 (c.normal - cleared))
  match alook s.turn_map k with
  | none => some data1
  | some dest => do
      let dq ← destQ data1 dest
      let cap ← alook s.exit_capacity dest
      let space := max 0 (cap - dq)
      let pushed := min cleared space
      let cd ← alook data1 (dest, Mov.straight)
      some (setFlatNormal data1 (dest, Mov.straight) (cd.normal + pushed))

/-- One iteration of the second loop of `simulate_flow`: add a random
arrival (`randint(0,3)`, one draw per inactive movement in iteration
order) to an inactive movement. -/
def rndStep (active : List Key) (rng : Nat → Nat) (p : Flat × Nat) (k : Key) :
    Option (Flat × Nat) :=
  if k ∈ active then some p
  else do
    let c ← alook p.1 k
    some (setFlatNormal p.1 k (c.normal + ((rng p.2 % 4 : Nat) : Int)), p.2 + 1)

/-- `simulate_flow(data, active_movements, green_time)`: clear active
movements in order, then add random arrivals to inactive movements. -/
def simulate_flow (s : Controller) (data : Flat) (active : List Key)
    (green_time : ℚ) (rng : Nat → Nat) : Option Flat := do
  let cleared ← active.foldlM (flowStep s green_time) data
  let result ← (allKeys s).foldlM (rndStep active rng) (cleared, 0)
  some result.1

/-- `update_waits(chosen)`: reset to 0 on granted keys, else increment. -/
def update_waits (s : Controller) (chosen : List Key) : Controller :=
  { s with lanes := s.lanes.map (fun p =>
      (p.1, fun m =>
        if (p.1, m) ∈ chosen then { p.2 m with wait := 0 }
        else { p.2 m with wait := (p.2 m).wait + 1 })) }

/-- A camera-input entry: `lane_id`, optional per-movement `movements` and
`emergency` mappings. -/
structure Entry where
  lane_id : String
  movs : List (Mov × Int)
  emergency : List (Mov × Int)

/-- Ingest one movement of one snapshot entry: `normal` from the entry
(missing key retains the prior value), `emergency` from the entry
(missing key resets to 0), and mirror both plus the current `wait`
into `flat`. -/
def ingestStep (e : Entry) (q : Controller × Flat) (mv : Mov) :
    Option (Controller × Flat) := do
  let ld ← alook q.1.lanes e.lane_id
  let newNormal := (alook e.movs mv).getD (ld mv).normal
  let newEmergency := (alook e.emergency mv).getD 0
  let s' := setCell q.1 e.lane_id mv
    (fun c => { c with normal := newNormal, emergency := newEmergency })
  some (s', aput q.2 (e.lane_id, mv) ⟨newNormal, newEmergency, (ld mv).wait⟩)

/-- Ingest one snapshot entry (the inner loop over the three movements). -/
def ingestEntry (p : Controller × Flat) (e : Entry) : Option (Controller × Flat) :=
  movements.foldlM (ingestStep e) p

/-- The ingestion loop of `update` (lines 258–264). -/
def ingestAll (s : Controller) (input : List Entry) : Option (Controller × Flat) :=
  input.foldlM ingestEntry (s, [])

/-- The `ensure_lane` loop of `update` (lines 254–255). -/
def ensureAll (s : Controller) (input : List Entry) : Controller :=
  input.foldl (fun t e => ensure_lane t e.lane_id) s

/-- The co-phase loop of the normal path of `update` (lines 296–303):
note the size test runs *after* a possible append and is skipped by the
`continue` on the seed. -/
def coPhase (s : Controller) (seed : Key) (bound : Nat) :
    List Key → List Key → Option (List Key)
  | [], acc => some acc
  | c :: rest, acc =>
      if c = seed then coPhase s seed bound rest acc
      else do
        let ok ← allCompat s c acc
        let acc' := if ok then acc ++ [c] else acc
        if bound ≤ acc'.length then some acc'
        else coPhase s seed bound rest acc'

/-- `sorted(flat.keys(), key=lambda kv: -(normal * (1 + wait * wait_boost)))`
— stable ascending sort on the negated score. -/
def sortCandidates (s : Controller) (flat : Flat) : List Key :=
  (List.insertionSort (fun a b : Key × FlatCell =>
      -((a.2.normal : ℚ) * (1 + (a.2.wait : ℚ) * s.wait_boost)) ≤
      -((b.2.normal : ℚ) * (1 + (b.2.wait : ℚ) * s.wait_boost))) flat).map
    (fun p => p.1)

/-- The policy cascade of `update` (lines 265–313 up to the flow step):
returns the granted keys, the phase duration, and the state with the
lights and phase descriptor already written. -/
def runPolicy (s : Controller) (flat : Flat) (now : ℚ) :
    Option (List Key × ℚ × Controller) := do
  let ap ← apply_ambulance_policy s now
  if ap.1 then
    match ap.2.current_green with
    | some (_, greens) => some (greens, ap.2.current_green_time, ap.2)
    | none => none
  else
    let ce := choose_emergency_movement ap.2 flat
    let sB := { ap.2 with last_emergency_lane := ce.2 }
    match ce.1 with
    | some k => do
        let g ← calculate_green_for_movement sB k.1 k.2
        let s' ← setLightsChosen sB [k]
        some ([k], g,
          { s' with
            current_green := some ("emergency", [k])
            current_green_time := g
            green_started_at := now })
    | none => do
        let seed ← choose_normal_movement sB flat
        let ks ← coPhase sB seed (max 1 (sB.lanes.length / 2))
          (sortCandidates sB flat) [seed]
        let gs ← ks.mapM (fun k => calculate_green_for_movement sB k.1 k.2)
        let g := match gs with | [] => sB.min_green | g0 :: gr => listMax g0 gr
        let s' ← setLightsChosen sB ks
        some (ks, g,
          { s' with
            current_green := some ("normal_multi", ks)
            current_green_time := g
            green_started_at := now })

/-- The returned mapping `{l: {m: state}}`. -/
abbrev Lights := List (String × (Mov → List Nat))

/-- Build the returned light mapping from the state. -/
def lightsOf (s : Controller) : Lights :=
  s.lanes.map (fun p => (p.1, fun m => (p.2 m).state))

/-- The light of one key in a returned mapping. -/
def lightAtL (lights : Lights) (k : Key) : Option (List Nat) :=
  (alook lights k.1).map (fun f => f k.2)

/-- One step of the commit loop of `update`: write one `normal` value of
`flat` back into `self.lanes` (`none` models the `KeyError` on an unknown
lane). -/
def commitStep (t : Controller) (kv : Key × FlatCell) : Option Controller := do
  let _ ← alook t.lanes kv.1.1
  some (setCell t kv.1.1 kv.1.2 (fun c => { c with normal := kv.2.normal }))

/-- The commit loop of `update`. -/
def commitFlat (s : Controller) (flat : Flat) : Option Controller :=
  flat.foldlM commitStep s

/-- The common tail of the three policy paths of `update`: simulate the
flow on `flat`, update waits, commit, and return the light mapping. -/
def cycleTail (s : Controller) (flat : Flat) (ks : List Key) (g : ℚ)
    (rng : Nat → Nat) : Option (Lights × Controller) := do
  let flat2 ← simulate_flow s flat ks g rng
  let s6 := update_waits s ks
  let s7 ← commitFlat s6 flat2
  some (lightsOf s7, s7)

/-- `update(camera_input)`: ensure lanes, rebuild the topology, ingest,
plan ambulances, resolve the policy, then flow/waits/commit/return. -/
def update (s : Controller) (input : List Entry) (now : ℚ) (rng : Nat → Nat) :
    Option (Lights × Controller) := do
  let s2 := rebuild_conflicts (rebuild_turn_map (ensureAll s input))
  let sf ← ingestAll s2 input
  let s4 ← plan_ambulances sf.1 now
  let pol ← runPolicy s4 sf.2 now
  cycleTail pol.2.2 sf.2 pol.1 pol.2.1 rng

/-! ## Concrete fixtures used by counterexamples and witnesses -/

/-- The all-zero random stream (`randint(0,3)` returning 0 every time). -/
def rngZero : Nat → Nat := fun _ => 0

/-- Snapshot entry: lane `A` with 5 vehicles queued on `straight`. -/
def entryA5 : Entry := ⟨"A", [(Mov.straight, 5)], []⟩

/-- Snapshot entry: lane `B` with 5 vehicles queued on `straight`. -/
def entryB5 : Entry := ⟨"B", [(Mov.straight, 5)], []⟩

/-- Snapshot entry: lane `A` with 30 normal vehicles and 1 emergency vehicle
on `straight` (30 ≥ 20 − 2, so the destination of `(A, straight)` — lane `A`
itself in a single-lane topology — is blocked). -/
def entryBlockedEm : Entry := ⟨"A", [(Mov.straight, 30)], [(Mov.straight, 1)]⟩

/-- Snapshot entry carrying a negative count. -/
def entryNeg : Entry := ⟨"A", [(Mov.straight, -5)], []⟩

/-! ## Proof infrastructure -/

/-- A property holding of the payload of a `some`. -/
def optHolds {α : Type} (o : Option α) (P : α → Prop) : Prop :=
  match o with
  | none => False
  | some a => P a

/-- No conflict in either direction between every two distinct members. -/
def okPair (s : Controller) (ks : List Key) : Prop :=
  ∀ a ∈ ks, ∀ b ∈ ks, a ≠ b → a ∉ conflictsGet s b ∧ b ∉ conflictsGet s a

/-- What ingestion leaves untouched: everything except the `normal` and
`emergency` counters of the lanes. -/
def ingPres (A B : Controller) : Prop :=
  B.exit_capacity = A.exit_capacity ∧ B.turn_map = A.turn_map ∧
  B.conflicts = A.conflicts ∧ B.ambulances = A.ambulances ∧
  B.current_green = A.current_green ∧
  B.planned_ambulance_jobs = A.planned_ambulance_jobs ∧
  B.lanes.length = A.lanes.length ∧
  (∀ l, alook B.lanes l = none ↔ alook A.lanes l = none) ∧
  (∀ l ld, alook A.lanes l = some ld → ∃ ld', alook B.lanes l = some ld' ∧
    ∀ m, (ld' m).wait = (ld m).wait ∧ (ld' m).state = (ld m).state)

/-- Every stored light is RED `[1,0,0]` or GREEN `[0,0,1]`. -/
def LightsOK (s : Controller) : Prop :=
  ∀ l ld, alook s.lanes l = some ld → ∀ m,
    (ld m).state = [1, 0, 0] ∨ (ld m).state = [0, 0, 1]

/-- Every light of a returned mapping is RED or GREEN. -/
def LightsListOK (lights : Lights) : Prop :=
  ∀ l f, alook lights l = some f → ∀ m,
    f m = [1, 0, 0] ∨ f m = [0, 0, 1]

/-- The states reachable through the public operations of the controller. -/
inductive Reachable : Controller → Prop
  | init : Reachable initController
  | ensure (s : Controller) (l : String) : Reachable s →
      Reachable (ensure_lane s l)
  | register (s : Controller) (amb_id lane : String) (mov : Mov) (eta now : ℚ) :
      Reachable s → Reachable (register_ambulance s amb_id lane mov eta now)
  | update_step (s : Controller) (input : List Entry) (now : ℚ) (rng : Nat → Nat)
      (lights : Lights) (s' : Controller) : Reachable s →
      update s input now rng = some (lights, s') → Reachable s'

/-- All `normal` counters of a working table are nonnegative. -/
def NonNegFlat (data : Flat) : Prop :=
  ∀ k c, alook data k = some c → 0 ≤ c.normal

/-- Fixture: a two-lane controller with the turn map rebuilt, for
exercising the flow model. -/
def sW8 : Controller := rebuild_turn_map (ensure_lane (ensure_lane initController "A") "B")

/-- Fixture: a working table with 5 normal vehicles on each straight
movement and empty other movements. -/
def dataW8 : Flat :=
  [(("A", Mov.straight), ⟨5, 0, 0⟩), (("A", Mov.left), ⟨0, 0, 0⟩),
   (("A", Mov.right), ⟨0, 0, 0⟩), (("B", Mov.straight), ⟨5, 0, 0⟩),
   (("B", Mov.left), ⟨0, 0, 0⟩), (("B", Mov.right), ⟨0, 0, 0⟩)]

/-- Destructure a successful `Option` bind. -/
theorem bind_some {α β : Type} {a : Option α} {f : α → Option β} {b : β}
    (h : a >>= f = some b) : ∃ x, a = some x ∧ f x = some b := by
  cases a with
  | none => exact absurd h (by simp)
  | some x => exact ⟨x, rfl, h⟩

theorem alook_aset {α β : Type} [DecidableEq α] (l : List (α × β)) (x : α)
    (f : β → β) (y : α) :
    alook (aset l x f) y = (alook l y).map (fun b => if y = x then f b else b) := by
  induction l with
  | nil => rfl
  | cons p t ih =>
      obtain ⟨a, b⟩ := p
      simp only [aset, List.map_cons]
      by_cases hax : a = x
      · simp only [if_pos hax]
        by_cases hya : y = a
        · subst hya; simp [alook, hax]
        · simpa [alook, hya, aset] using ih
      · simp only [if_neg hax]
        by_cases hya : y = a
        · subst hya; simp [alook, hax]
        · simpa [alook, hya, aset] using ih

theorem alook_append_left {α β : Type} [DecidableEq α] {l1 : List (α × β)}
    (l2 : List (α × β)) {y : α} {b : β} (h : alook l1 y = some b) :
    alook (l1 ++ l2) y = some b := by
  induction l1 with
  | nil => exact absurd h (by simp [alook])
  | cons p t ih =>
      obtain ⟨a, c⟩ := p
      by_cases hy : y = a
      · simp only [alook, if_pos hy] at h
        simp [alook, hy, h]
      · simp only [alook, if_neg hy] at h
        simpa [alook, hy] using ih h

theorem alook_append_right {α β : Type} [DecidableEq α] {l1 : List (α × β)}
    (l2 : List (α × β)) {y : α} (h : alook l1 y = none) :
    alook (l1 ++ l2) y = alook l2 y := by
  induction l1 with
  | nil => rfl
  | cons p t ih =>
      by_cases hy : y = p.1
      · simp [alook, hy] at h
      · simp only [alook, if_neg hy] at h
        simpa [alook, hy] using ih h

theorem alook_mapVal {α β γ : Type} [DecidableEq α] (l : List (α × β))
    (g : α → β → γ) (y : α) :
    alook (l.map (fun p => (p.1, g p.1 p.2))) y = (alook l y).map (g y) := by
  induction l with
  | nil => rfl
  | cons p t ih =>
      by_cases hy : y = p.1
      · subst hy; simp [alook]
      · simpa [alook, hy] using ih

theorem alook_aput_self {α β : Type} [DecidableEq α] (l : List (α × β))
    (x : α) (v : β) : alook (aput l x v) x = some v := by
  unfold aput
  cases hl : alook l x with
  | none =>
      simp only [hl, Option.isSome_none, Bool.false_eq_true, if_false]
      rw [alook_append_right _ hl]
      simp [alook]
  | some b => simp [hl, alook_aset, hl]

theorem alook_aput_ne {α β : Type} [DecidableEq α] (l : List (α × β))
    (x : α) (v : β) {y : α} (h : y ≠ x) : alook (aput l x v) y = alook l y := by
  unfold aput
  cases hl : alook l y with
  | none =>
      by_cases hp : (alook l x).isSome
      · simp [hp, alook_aset, hl, h]
      · simp only [hp, if_false, Bool.false_eq_true]
        rw [alook_append_right _ hl]
        simp [alook, h]
  | some b =>
      by_cases hp : (alook l x).isSome
      · simp [hp, alook_aset, hl, h]
      · simp only [hp, if_false, Bool.false_eq_true]
        rw [alook_append_left _ hl]

theorem alook_setCell_self (s : Controller) (lane : String) (m : Mov)
    (f : Cell → Cell) {ld : LaneData} (h : alook s.lanes lane = some ld) :
    alook (setCell s lane m f).lanes lane = some (updMov ld m f) := by
  simp [setCell, alook_aset, h]

theorem alook_setCell_ne (s : Controller) (lane : String) (m : Mov)
    (f : Cell → Cell) {l' : String} (h : l' ≠ lane) :
    alook (setCell s lane m f).lanes l' = alook s.lanes l' := by
  simp only [setCell, alook_aset, if_neg h]
  cases alook s.lanes l' <;> simp [h]

theorem alook_setCell (s : Controller) (lane : String) (m : Mov)
    (f : Cell → Cell) (l' : String) :
    alook (setCell s lane m f).lanes l' =
      (alook s.lanes l').map (fun ld => if l' = lane then updMov ld m f else ld) := by
  by_cases h : l' = lane
  · subst h
    cases hl : alook s.lanes l' with
    | none => simp [setCell, alook_aset, hl]
    | some ld => simp [alook_setCell_self s _ _ _ hl]
  · rw [alook_setCell_ne s _ _ _ h]
    cases alook s.lanes l' <;> simp [h]

theorem ingestStep_spec (e : Entry) (S : Controller) (F : Flat) (mv : Mov)
    {ld : LaneData} (h : alook S.lanes e.lane_id = some ld) :
    ingestStep e (S, F) mv =
      some (setCell S e.lane_id mv (fun c =>
              { c with normal := (alook e.movs mv).getD (ld mv).normal
                       emergency := (alook e.emergency mv).getD 0 }),
            aput F (e.lane_id, mv)
              ⟨(alook e.movs mv).getD (ld mv).normal, (alook e.emergency mv).getD 0,
               (ld mv).wait⟩) := by
  simp [ingestStep, h]

theorem mapM_option_forall {α β : Type} (f : α → Option β) :
    ∀ (l : List α) (r : List β), l.mapM f = some r →
      (∀ b ∈ r, ∃ a ∈ l, f a = some b) ∧ (∀ a ∈ l, ∃ b ∈ r, f a = some b) := by
  intro l
  induction l with
  | nil =>
      intro r h
      simp only [List.mapM_nil] at h
      cases Option.some.inj h
      simp
  | cons a t ih =>
      intro r h
      simp only [List.mapM_cons, Option.bind_eq_bind'] at h
      obtain ⟨b, hb, h⟩ := bind_some (by simpa [Option.bind_eq_bind'] using h)
      obtain ⟨r', hr', h⟩ := bind_some (by simpa [Option.bind_eq_bind'] using h)
      cases Option.some.inj h
      obtain ⟨fwd, bwd⟩ := ih r' hr'
      constructor
      · rintro c hc
        rcases List.mem_cons.mp hc with rfl | hc
        · exact ⟨a, List.mem_cons_self a t, hb⟩
        · obtain ⟨x, hx, hfx⟩ := fwd c hc
          exact ⟨x, List.mem_cons_of_mem a hx, hfx⟩
      · rintro x hx
        rcases List.mem_cons.mp hx with rfl | hx
        · exact ⟨b, List.mem_cons_self b r', hb⟩
        · obtain ⟨c, hc, hfc⟩ := bwd x hx
          exact ⟨c, List.mem_cons_of_mem b hc, hfc⟩

theorem foldl_argmax_spec (xs : List (Key × ℚ)) :
    ∀ x : Key × ℚ,
      (xs.foldl (fun best p => if best.2 < p.2 then p else best) x) ∈ x :: xs ∧
      ∀ p ∈ x :: xs,
        p.2 ≤ (xs.foldl (fun best p => if best.2 < p.2 then p else best) x).2 := by
  induction xs with
  | nil => intro x; simp
  | cons y t ih =>
      intro x
      simp only [List.foldl_cons]
      by_cases hxy : x.2 < y.2
      · obtain ⟨hmem, hmax⟩ := ih y
        rw [if_pos hxy]
        refine ⟨List.mem_cons_of_mem x hmem, ?_⟩
        intro p hp
        rcases List.mem_cons.mp hp with rfl | hp
        · exact le_of_lt (lt_of_lt_of_le hxy (hmax y (List.mem_cons_self y t)))
        · exact hmax p hp
      · obtain ⟨hmem, hmax⟩ := ih x
        rw [if_neg hxy]
        constructor
        · rcases List.mem_cons.mp hmem with h | h
          · rw [h]; exact List.mem_cons_self x (y :: t)
          · exact List.mem_cons_of_mem x (List.mem_cons_of_mem y h)
        · intro p hp
          rcases List.mem_cons.mp hp with rfl | hp
          · exact hmax _ (List.mem_cons_self _ t)
          · rcases List.mem_cons.mp hp with rfl | hp'
            · exact le_trans (le_of_not_lt hxy) (hmax _ (List.mem_cons_self _ t))
            · exact hmax p (List.mem_cons_of_mem _ hp')

/-! ## Claim C2 (totality of `update`) -/

/-- C2: the claim fails on the code.  On a fresh controller an empty
snapshot leaves the lane set empty, so `choose_normal_movement` evaluates
`max` over an empty score dict and raises `ValueError` (modelled by
`none`): `update` does not return a light mapping. -/
theorem update_empty_snapshot_fails :
    update initController [] 0 rngZero = none := by with_unfolding_all rfl

/-! ## Claim C3 (ambulance eviction) -/

/-- C3 counterexample: an ambulance registered at time 0 with `eta_abs = 0`
on a lane unknown to the topology is dropped by the planner (no planned job
remains), yet after planning at `now = 1000` — far beyond any grace period,
`1000 − grace ≥ 1000 − 15 > 0 = eta_abs` — it is still registered: the code
contains no `purge_expired` and never evicts ambulances. -/
theorem ambulance_eviction_cex :
    (plan_ambulances (register_ambulance initController "amb1" "L" Mov.straight 0 0)
        1000).map (fun s => s.ambulances) =
      some [⟨"amb1", "L", Mov.straight, 0, 0⟩] ∧
    (plan_ambulances (register_ambulance initController "amb1" "L" Mov.straight 0 0)
        1000).map (fun s => s.planned_ambulance_jobs) = some [] ∧
    (0 : ℚ) < 1000 - 15 :=
  ⟨by with_unfolding_all rfl, by with_unfolding_all rfl, by norm_num⟩

/-- C3 amended: no eviction is performed.  `plan_ambulances` (the only
processing of the registry — there is no `purge_expired` in the code)
leaves the registered list unchanged, and the list changes only through
`register_ambulance`, which replaces same-id entries and appends the new
record. -/
theorem ambulances_never_evicted (s : Controller) (now : ℚ) (s' : Controller)
    (h : plan_ambulances s now = some s') :
    s'.ambulances = s.ambulances ∧
    ∀ amb_id lane mov eta t,
      (register_ambulance s amb_id lane mov eta t).ambulances =
        (s.ambulances.filter (fun a => a.id ≠ amb_id)) ++
          [⟨amb_id, lane, mov, t + eta, t⟩] := by
  refine ⟨?_, fun _ _ _ _ _ => rfl⟩
  obtain ⟨jobs, -, h⟩ := bind_some h
  obtain ⟨sched, -, h⟩ := bind_some h
  cases h
  rfl

/-- Witness for the amended C3 theorem at a concrete state. -/
theorem ambulances_never_evicted_witness :
    initController.ambulances = initController.ambulances ∧
    ∀ amb_id lane mov eta t,
      (register_ambulance initController amb_id lane mov eta t).ambulances =
        (initController.ambulances.filter (fun a => a.id ≠ amb_id)) ++
          [⟨amb_id, lane, mov, t + eta, t⟩] :=
  ambulances_never_evicted initController 0 initController rfl

/-! ## Claim C4 (co-phase size bound) -/

/-- C4 counterexample: with two lanes (`max(1, ⌊2/2⌋) = 1`) and both
`straight` movements congested and compatible, the emitted NORMAL phase
grants GREEN to 2 movements: the loop tests the bound only after a
possible append, so the set can exceed `max(1, ⌊n_lanes/2⌋)`. -/
theorem cophase_size_bound_cex :
    (update initController [entryA5, entryB5] 0 rngZero).map
        (fun p => p.2.current_green) =
      some (some ("normal_multi", [("A", Mov.straight), ("B", Mov.straight)])) ∧
    (update initController [entryA5, entryB5] 0 rngZero).map
        (fun p => (lightAtL p.1 ("A", Mov.straight), lightAtL p.1 ("B", Mov.straight))) =
      some (some [0, 0, 1], some [0, 0, 1]) ∧
    (update initController [entryA5, entryB5] 0 rngZero).map
        (fun p => p.2.lanes.length) = some 2 ∧
    ¬((2 : Nat) ≤ max 1 (2 / 2)) :=
  ⟨by with_unfolding_all rfl, by with_unfolding_all rfl, by with_unfolding_all rfl,
    by decide⟩

/-! ## Claim C5 (blocked-destination disqualification) -/

/-- C5 counterexample: `choose_emergency_movement` never consults
`exit_blocked`.  With one lane whose own queue blocks it (31 ≥ 20 − 2) and
one emergency vehicle, the EMERGENCY policy (not the normal-policy
fallback) seeds and greens `(A, straight)` although its destination `A`
is blocked at choosing time. -/
theorem emergency_ignores_blocked_cex :
    (ingestAll (rebuild_conflicts (rebuild_turn_map
        (ensureAll initController [entryBlockedEm]))) [entryBlockedEm]).map
        (fun q => (exit_blocked q.1 "A", alook q.1.turn_map ("A", Mov.straight))) =
      some (some true, some "A") ∧
    (update initController [entryBlockedEm] 0 rngZero).map
        (fun p => p.2.current_green) =
      some (some ("emergency", [("A", Mov.straight)])) ∧
    (update initController [entryBlockedEm] 0 rngZero).map
        (fun p => lightAtL p.1 ("A", Mov.straight)) =
      some (some [0, 0, 1]) :=
  ⟨by with_unfolding_all rfl, by with_unfolding_all rfl, by with_unfolding_all rfl⟩

/-- C5 amended: blocked destinations disqualify movements from co-phasing
(every `movements_compatible` check fails on a blocked destination) and
from the normal chooser except as its fallback (the chooser returns a
blocked movement only when every movement's destination is blocked, given
well-formed nonnegative queue data).  The emergency chooser and the
ambulance seed, however, never consult the blocked state. -/
theorem blocked_destination_disqualifies_amended (s : Controller) :
    (∀ a b, movements_compatible s a b = some true →
      a ≠ b ∧ b ∉ conflictsGet s a ∧ a ∉ conflictsGet s b ∧
      (alook s.turn_map a).bind (exit_blocked s) = some false ∧
      (alook s.turn_map b).bind (exit_blocked s) = some false) ∧
    (∀ flat : Flat, 0 ≤ s.wait_boost →
      (∀ k c, alook flat k = some c → 0 ≤ c.normal ∧ 0 ≤ c.wait) →
      ∀ k, choose_normal_movement s flat = some k →
        exit_blocked s ((alook s.turn_map k).getD k.1) = some true →
        ∀ k' ∈ allKeys s,
          exit_blocked s ((alook s.turn_map k').getD k'.1) = some true) := by
  constructor
  · intro a b h
    unfold movements_compatible at h
    by_cases hab : a = b
    · rw [if_pos hab] at h; simp at h
    rw [if_neg hab] at h
    by_cases h1 : b ∈ conflictsGet s a
    · rw [if_pos h1] at h; simp at h
    rw [if_neg h1] at h
    by_cases h2 : a ∈ conflictsGet s b
    · rw [if_pos h2] at h; simp at h
    rw [if_neg h2] at h
    refine ⟨hab, h1, h2, ?_⟩
    cases hd1 : alook s.turn_map a with
    | none =>
        rw [hd1] at h
        cases hd2 : alook s.turn_map b <;> rw [hd2] at h <;> simp at h
    | some d1 =>
        cases hd2 : alook s.turn_map b with
        | none => rw [hd1, hd2] at h; simp at h
        | some d2 =>
            rw [hd1, hd2] at h
            dsimp only at h
            simp only [Option.some_bind']
            cases hb1 : exit_blocked s d1 with
            | none => rw [hb1] at h; simp at h
            | some b1 =>
                rw [hb1] at h
                cases b1 with
                | true => simp at h
                | false =>
                    dsimp only at h
                    cases hb2 : exit_blocked s d2 with
                    | none => rw [hb2] at h; simp at h
                    | some b2 =>
                        rw [hb2] at h
                        simp only [Option.map_some'] at h
                        cases b2 with
                        | true => simp at h
                        | false => exact ⟨rfl, rfl⟩
  · intro flat hwb hnn k hk hblocked k' hk'
    unfold choose_normal_movement at hk
    obtain ⟨scored, hsc, hk⟩ := bind_some hk
    match scored, hk with
    | x :: xs, hk =>
    obtain ⟨fwd, bwd⟩ := mapM_option_forall _ _ _ hsc
    obtain ⟨hmem, hmax⟩ := foldl_argmax_spec xs x
    obtain rfl := Option.some.inj hk
    set best := xs.foldl (fun best p => if best.2 < p.2 then p else best) x with hbest
    obtain ⟨a, -, hfa⟩ := fwd best hmem
    have hsk : scoreKey s flat best.1 = some best.2 := by
      cases hsa : scoreKey s flat a with
      | none => rw [hsa] at hfa; cases hfa
      | some v =>
          rw [hsa] at hfa
          simp only [Option.map_some'] at hfa
          rw [← Option.some.inj hfa]
          simpa using hsa
    have hval : best.2 = -1000000000 := by
      simp only [scoreKey, hblocked, Option.bind_eq_bind', Option.some_bind',
        eq_self_iff_true, if_true] at hsk
      exact (Option.some.inj hsk).symm
    obtain ⟨b, hbmem, hfb⟩ := bwd k' hk'
    have hsk2 : scoreKey s flat k' = some b.2 := by
      cases hsa : scoreKey s flat k' with
      | none => rw [hsa] at hfb; cases hfb
      | some v =>
          rw [hsa] at hfb
          simp only [Option.map_some'] at hfb
          rw [← Option.some.inj hfb]
    have hle : b.2 ≤ best.2 := hmax b hbmem
    cases hb' : exit_blocked s ((alook s.turn_map k').getD k'.1) with
    | none =>
        simp only [scoreKey, hb', Option.bind_eq_bind', Option.none_bind'] at hsk2
        exact absurd hsk2 (by simp)
    | some bb =>
        cases bb with
        | true => rfl
        | false =>
            exfalso
            simp only [scoreKey, hb', Option.bind_eq_bind', Option.some_bind',
              Bool.false_eq_true, if_false] at hsk2
            have hv := Option.some.inj hsk2
            have hn0 : (0 : Int) ≤ ((alook flat k').map (fun c => c.normal)).getD 0 := by
              cases hfl : alook flat k' with
              | none => simp
              | some c => simpa using (hnn k' c hfl).1
            have hw0 : (0 : Int) ≤ ((alook flat k').map (fun c => c.wait)).getD 0 := by
              cases hfl : alook flat k' with
              | none => simp
              | some c => simpa using (hnn k' c hfl).2
            have hcast : (0 : ℚ) ≤
                ((((alook flat k').map (fun c => c.wait)).getD 0 : Int) : ℚ) := by
              exact_mod_cast hw0
            have hpos : (0 : ℚ) ≤ b.2 := by
              rw [← hv]
              have h1 : (0 : ℚ) ≤
                  ((((alook flat k').map (fun c => c.normal)).getD 0 : Int) : ℚ) *
                    (1 + ((((alook flat k').map (fun c => c.wait)).getD 0 : Int) : ℚ) *
                      s.wait_boost) := by
                apply mul_nonneg
                · exact_mod_cast hn0
                · nlinarith [mul_nonneg hcast hwb]
              have h2 : (0 : ℚ) ≤
                  (if s.starvation_limit ≤
                      ((alook flat k').map (fun c => c.wait)).getD 0
                    then (10000 : ℚ) else 0) := by
                split_ifs <;> norm_num
              linarith
            rw [hval] at hle
            linarith

/-- Witness for the amended C5 theorem: on the concrete ingested two-lane
state of the co-phase fixture, `(A, straight)` and `(B, straight)` are
compatible, so both their destinations are unblocked. -/
theorem blocked_destination_disqualifies_amended_witness :
    optHolds (ingestAll (rebuild_conflicts (rebuild_turn_map
        (ensureAll initController [entryA5, entryB5]))) [entryA5, entryB5])
      (fun q =>
        (alook q.1.turn_map ("A", Mov.straight)).bind (exit_blocked q.1) =
          some false ∧
        (alook q.1.turn_map ("B", Mov.straight)).bind (exit_blocked q.1) =
          some false) := by
  obtain ⟨q, hq⟩ := Option.isSome_iff_exists.mp
    (show (ingestAll (rebuild_conflicts (rebuild_turn_map
        (ensureAll initController [entryA5, entryB5]))) [entryA5, entryB5]).isSome =
      true by with_unfolding_all rfl)
  rw [hq]
  have hcompat : movements_compatible q.1 ("A", Mov.straight) ("B", Mov.straight) =
      some true := by
    have he : (ingestAll (rebuild_conflicts (rebuild_turn_map
        (ensureAll initController [entryA5, entryB5]))) [entryA5, entryB5]).map
          (fun q => movements_compatible q.1 ("A", Mov.straight) ("B", Mov.straight)) =
        some (some true) := by with_unfolding_all rfl
    rw [hq] at he
    simpa using he
  have h := ((blocked_destination_disqualifies_amended q.1).1 _ _ hcompat)
  exact ⟨h.2.2.2.1, h.2.2.2.2⟩

/-! ## Claim C6 (rejection of negative counts) -/

/-- C6 counterexample: a snapshot entry with `straight = -5` is ingested
verbatim (no rejection, the prior value 0 is not retained), the movement
is not granted green, the random arrivals draw 0, and after `update` the
stored `normal` is `-5 < 0`. -/
theorem negative_count_cex :
    (update initController [entryNeg] 0 rngZero).map
        (fun p => (alook p.2.lanes "A").map (fun ld => (ld Mov.straight).normal)) =
      some (some (-5)) ∧
    ¬((0 : Int) ≤ -5) :=
  ⟨by with_unfolding_all rfl, by decide⟩

/-- C6 amended: ingestion performs no validation.  For a lane present in
the state, ingesting a snapshot entry stores for every movement exactly
the entry's `normal` value (the prior value when the key is missing) and
exactly the entry's `emergency` value (0 when missing) — negative values
included, nothing rejected, no prior value retained for a present key —
and mirrors both into `flat` with the unchanged `wait`.  Counts are
therefore nonnegative after `update` only when the inputs are. -/
theorem ingestion_stores_counts_verbatim (s : Controller) (fl : Flat) (e : Entry)
    {ld : LaneData} (h : alook s.lanes e.lane_id = some ld)
    {s' : Controller} {fl' : Flat} (h' : ingestEntry (s, fl) e = some (s', fl'))
    (m : Mov) :
    (alook s'.lanes e.lane_id).map (fun ld' => (ld' m).normal) =
      some ((alook e.movs m).getD (ld m).normal) ∧
    (alook s'.lanes e.lane_id).map (fun ld' => (ld' m).emergency) =
      some ((alook e.emergency m).getD 0) ∧
    alook fl' (e.lane_id, m) =
      some ⟨(alook e.movs m).getD (ld m).normal, (alook e.emergency m).getD 0,
            (ld m).wait⟩ := by
  simp only [ingestEntry, movements, List.foldlM_cons, List.foldlM_nil,
    Option.bind_eq_bind'] at h'
  rw [ingestStep_spec e s fl Mov.straight h, Option.some_bind] at h'
  rw [ingestStep_spec e _ _ Mov.left (alook_setCell_self _ _ _ _ h),
    Option.some_bind] at h'
  rw [ingestStep_spec e _ _ Mov.right
    (alook_setCell_self _ _ _ _ (alook_setCell_self _ _ _ _ h)),
    Option.some_bind] at h'
  obtain ⟨h1, h2⟩ := Prod.mk.inj (Option.some.inj h')
  subst h1
  subst h2
  refine ⟨?_, ?_, ?_⟩
  · rw [alook_setCell_self _ _ _ _ (alook_setCell_self _ _ _ _
      (alook_setCell_self _ _ _ _ h))]
    cases m <;> simp [updMov]
  · rw [alook_setCell_self _ _ _ _ (alook_setCell_self _ _ _ _
      (alook_setCell_self _ _ _ _ h))]
    cases m <;> simp [updMov]
  · cases m
    · rw [alook_aput_ne _ _ _ (by simp), alook_aput_ne _ _ _ (by simp),
        alook_aput_self]
      try simp [updMov]
    · rw [alook_aput_ne _ _ _ (by simp), alook_aput_self]
      try simp [updMov]
    · rw [alook_aput_self]
      try simp [updMov]

/-- Witness for the amended C6 theorem: a negative `straight` count on a
concrete single-lane state lands verbatim (as −5) in the state and in
`flat`. -/
theorem ingestion_stores_counts_verbatim_witness :
    optHolds (ingestEntry (ensure_lane initController "A", []) entryNeg)
      (fun q => alook q.2 ("A", Mov.straight) = some ⟨-5, 0, 0⟩) := by
  obtain ⟨q, hq⟩ := Option.isSome_iff_exists.mp
    (show (ingestEntry (ensure_lane initController "A", []) entryNeg).isSome = true by
      with_unfolding_all rfl)
  rw [hq]
  have := (@ingestion_stores_counts_verbatim (ensure_lane initController "A") [] entryNeg
    (fun _ => ⟨0, 0, 0, [1, 0, 0]⟩) rfl q.1 q.2
    (by rw [← hq]) Mov.straight).2.2
  simpa [entryNeg, alook] using this

/-! ## Claim C7 (registration contract) -/

/-- C7 counterexample: after registering an ambulance on lane `L` on a
fresh controller, `L` is not in the lane set — `register_ambulance` never
calls `ensure_lane` (the eta and replacement parts of the claim do hold). -/
theorem register_no_ensure_lane_cex :
    alook (register_ambulance initController "a" "L" Mov.straight 5 0).lanes "L" =
      none ∧
    (register_ambulance initController "a" "L" Mov.straight 5 0).ambulances =
      [⟨"a", "L", Mov.straight, 5, 0⟩] :=
  ⟨by with_unfolding_all rfl, by with_unfolding_all rfl⟩

/-- C7 amended: `register(amb_id, lane, movement, eta_seconds)` replaces any
prior entry with the same `amb_id` (latest wins, no error), stores
`eta_abs = now + eta_seconds`, and leaves the lane set untouched (no lazy
`ensure_lane` happens). -/
theorem register_contract (s : Controller) (amb_id lane : String) (mov : Mov)
    (eta_seconds now : ℚ) :
    (register_ambulance s amb_id lane mov eta_seconds now).ambulances =
      (s.ambulances.filter (fun a => a.id ≠ amb_id)) ++
        [⟨amb_id, lane, mov, now + eta_seconds, now⟩] ∧
    (register_ambulance s amb_id lane mov eta_seconds now).lanes = s.lanes ∧
    (register_ambulance s amb_id lane mov eta_seconds now).exit_capacity =
      s.exit_capacity :=
  ⟨rfl, rfl, rfl⟩


/-! ## Machinery: pairwise compatibility of built green sets -/

theorem okPair_nil (s : Controller) : okPair s [] := by
  intro a ha
  cases ha

theorem okPair_singleton (s : Controller) (k : Key) : okPair s [k] := by
  intro a ha b hb hab
  rw [List.mem_singleton] at ha hb
  exact absurd (ha.trans hb.symm) hab

theorem compat_noConf (s : Controller) (a b : Key)
    (h : movements_compatible s a b = some true) :
    a ≠ b ∧ b ∉ conflictsGet s a ∧ a ∉ conflictsGet s b := by
  unfold movements_compatible at h
  by_cases hab : a = b
  · rw [if_pos hab] at h; simp at h
  rw [if_neg hab] at h
  by_cases h1 : b ∈ conflictsGet s a
  · rw [if_pos h1] at h; simp at h
  rw [if_neg h1] at h
  by_cases h2 : a ∈ conflictsGet s b
  · rw [if_pos h2] at h; simp at h
  exact ⟨hab, h1, h2⟩

theorem allCompat_forall (s : Controller) (k : Key) :
    ∀ acc : List Key, allCompat s k acc = some true →
      ∀ g ∈ acc, movements_compatible s k g = some true := by
  intro acc
  induction acc with
  | nil => intro _ g hg; cases hg
  | cons g0 t ih =>
      intro h g hg
      unfold allCompat at h
      obtain ⟨b0, hb0, h⟩ := bind_some h
      cases b0 with
      | false => simp at h
      | true =>
          rw [if_pos rfl] at h
          rcases List.mem_cons.mp hg with rfl | hg
          · exact hb0
          · exact ih h g hg

theorem okPair_extend (s : Controller) (acc : List Key) (k : Key)
    (hok : okPair s acc)
    (hall : ∀ g ∈ acc, movements_compatible s k g = some true) :
    okPair s (acc ++ [k]) := by
  intro a ha b hb hab
  rcases List.mem_append.mp ha with ha | ha <;>
    rcases List.mem_append.mp hb with hb | hb
  · exact hok a ha b hb hab
  · rw [List.mem_singleton] at hb
    obtain ⟨-, hc1, hc2⟩ := compat_noConf s k a (hall a ha)
    rw [hb]
    exact ⟨hc1, hc2⟩
  · rw [List.mem_singleton] at ha
    obtain ⟨-, hc1, hc2⟩ := compat_noConf s k b (hall b hb)
    rw [ha]
    exact ⟨hc2, hc1⟩
  · rw [List.mem_singleton] at ha hb
    exact absurd (ha.trans hb.symm) hab

theorem buildGreens_ok (s : Controller) :
    ∀ (jobs : List Job) (acc r : List Key), okPair s acc →
      buildGreens s jobs acc = some r → okPair s r := by
  intro jobs
  induction jobs with
  | nil =>
      intro acc r hok h
      cases Option.some.inj h
      exact hok
  | cons j t ih =>
      intro acc r hok h
      unfold buildGreens at h
      obtain ⟨ok, hco, h⟩ := bind_some h
      cases ok with
      | false => exact ih acc r hok (by simpa using h)
      | true =>
          refine ih _ r ?_ (by simpa using h)
          exact okPair_extend s acc j.mov hok (allCompat_forall s j.mov acc hco)

theorem coPhase_ok (s : Controller) (seed : Key) (bound : Nat) :
    ∀ (cands acc r : List Key), okPair s acc →
      coPhase s seed bound cands acc = some r → okPair s r := by
  intro cands
  induction cands with
  | nil =>
      intro acc r hok h
      cases Option.some.inj h
      exact hok
  | cons c t ih =>
      intro acc r hok h
      unfold coPhase at h
      by_cases hc : c = seed
      · rw [if_pos hc] at h
        exact ih acc r hok h
      rw [if_neg hc] at h
      obtain ⟨ok, hco, h⟩ := bind_some h
      have hok' : okPair s (if ok = true then acc ++ [c] else acc) := by
        cases ok with
        | false => simpa using hok
        | true =>
            simp only [if_pos rfl]
            exact okPair_extend s acc c hok (allCompat_forall s c acc hco)
      by_cases hlen : bound ≤ (if ok = true then acc ++ [c] else acc).length
      · rw [if_pos hlen] at h
        cases Option.some.inj h
        exact hok'
      · rw [if_neg hlen] at h
        exact ih _ r hok' h

theorem coPhase_len_ge2 (s : Controller) (seed : Key) (bound : Nat) :
    ∀ (cands acc r : List Key), acc.length < bound →
      coPhase s seed bound cands acc = some r → r.length ≤ bound := by
  intro cands
  induction cands with
  | nil =>
      intro acc r hlt h
      cases Option.some.inj h
      exact le_of_lt hlt
  | cons c t ih =>
      intro acc r hlt h
      unfold coPhase at h
      by_cases hc : c = seed
      · rw [if_pos hc] at h
        exact ih acc r hlt h
      rw [if_neg hc] at h
      obtain ⟨ok, -, h⟩ := bind_some h
      have hlen' : (if ok = true then acc ++ [c] else acc).length ≤ bound := by
        cases ok <;> simp <;> omega
      by_cases hge : bound ≤ (if ok = true then acc ++ [c] else acc).length
      · rw [if_pos hge] at h
        cases Option.some.inj h
        exact hlen'
      · rw [if_neg hge] at h
        exact ih _ r (lt_of_not_le hge) h

theorem coPhase_len_one (s : Controller) (seed : Key) :
    ∀ (cands acc r : List Key), acc.length ≤ 1 →
      coPhase s seed 1 cands acc = some r → r.length ≤ 2 := by
  intro cands
  induction cands with
  | nil =>
      intro acc r hlen h
      cases Option.some.inj h
      omega
  | cons c t ih =>
      intro acc r hlen h
      unfold coPhase at h
      by_cases hc : c = seed
      · rw [if_pos hc] at h
        exact ih acc r hlen h
      rw [if_neg hc] at h
      obtain ⟨ok, -, h⟩ := bind_some h
      by_cases hge : 1 ≤ (if ok = true then acc ++ [c] else acc).length
      · rw [if_pos hge] at h
        cases Option.some.inj h
        cases ok with
        | false => simpa using le_trans hlen (by omega)
        | true =>
            simp
            omega
      · rw [if_neg hge] at h
        refine ih _ r ?_ h
        omega

theorem coPhase_len (s : Controller) (seed : Key) (bound : Nat)
    (hb : 1 ≤ bound) (cands r : List Key)
    (h : coPhase s seed bound cands [seed] = some r) :
    r.length ≤ max 2 bound := by
  rcases Nat.lt_or_ge bound 2 with h2 | h2
  · have hb1 : bound = 1 := le_antisymm (by omega) hb
    subst hb1
    exact le_trans (coPhase_len_one s seed cands [seed] r (by simp) h)
      (le_max_left 2 1)
  · exact le_trans (coPhase_len_ge2 s seed bound cands [seed] r
      (by simpa using h2) h) (le_max_right 2 bound)


/-! ## Machinery: the lights fold -/

theorem greenFold_spec :
    ∀ (ks : List Key) (t t' : Controller), ks.foldlM greenStep t = some t' →
      t'.exit_capacity = t.exit_capacity ∧ t'.turn_map = t.turn_map ∧
      t'.conflicts = t.conflicts ∧ t'.ambulances = t.ambulances ∧
      t'.current_green = t.current_green ∧ t'.lanes.length = t.lanes.length ∧
      (∀ l, alook t'.lanes l = none ↔ alook t.lanes l = none) ∧
      (∀ l ld, alook t.lanes l = some ld → ∃ ld', alook t'.lanes l = some ld' ∧
        ∀ m, (ld' m).normal = (ld m).normal ∧
          (ld' m).emergency = (ld m).emergency ∧
          (ld' m).wait = (ld m).wait ∧
          (ld' m).state = if (l, m) ∈ ks then [0, 0, 1] else (ld m).state) := by
  intro ks
  induction ks with
  | nil =>
      intro t t' h
      cases Option.some.inj h
      exact ⟨rfl, rfl, rfl, rfl, rfl, rfl, fun l => Iff.rfl,
        fun l ld hld => ⟨ld, hld, fun m => ⟨rfl, rfl, rfl, by simp⟩⟩⟩
  | cons k ks ih =>
      intro t t' h
      rw [List.foldlM_cons] at h
      obtain ⟨t1, hstep, h⟩ := bind_some h
      obtain ⟨ld0, hld0, hstep⟩ := bind_some hstep
      cases Option.some.inj hstep
      obtain ⟨he, htm, hcf, hab, hcg, hlen, hnone, hcell⟩ := ih _ _ h
      have hsetlen : (setCell t k.1 k.2
          (fun c => { c with state := [0, 0, 1] })).lanes.length = t.lanes.length := by
        simp [setCell, aset]
      refine ⟨he, htm, hcf, hab, hcg, hlen.trans hsetlen, ?_, ?_⟩
      · intro l
        rw [hnone l, alook_setCell]
        cases alook t.lanes l <;> simp
      · intro l ld hld
        have h1 := alook_setCell t k.1 k.2 (fun c => { c with state := [0, 0, 1] }) l
        rw [hld] at h1
        simp only [Option.map_some'] at h1
        obtain ⟨ld', hld', hprops⟩ := hcell l _ h1
        have hval : ∀ m,
            (if l = k.1 then updMov ld k.2 (fun c => { c with state := [0, 0, 1] })
              else ld) m =
            if (l, m) = k then { ld m with state := [0, 0, 1] } else ld m := by
          intro m
          by_cases hlk : l = k.1
          · by_cases hmk : m = k.2
            · have hpk : (l, m) = k := by
                rw [Prod.ext_iff]
                exact ⟨hlk, hmk⟩
              rw [if_pos hlk, if_pos hpk]
              simp [updMov, hmk]
            · have hpk : (l, m) ≠ k := by
                intro hcon
                exact hmk (congrArg Prod.snd hcon)
              rw [if_pos hlk, if_neg hpk]
              simp [updMov, hmk]
          · have hpk : (l, m) ≠ k := by
              intro hcon
              exact hlk (congrArg Prod.fst hcon)
            rw [if_neg hlk, if_neg hpk]
        refine ⟨ld', hld', fun m => ?_⟩
        obtain ⟨hn, he2, hw, hs⟩ := hprops m
        rw [hval m] at hn he2 hw hs
        by_cases hpk : (l, m) = k
        · rw [if_pos hpk] at hn he2 hw hs
          refine ⟨by simpa using hn, by simpa using he2, by simpa using hw, ?_⟩
          rw [hs]
          have hmem : (l, m) ∈ k :: ks := by
            rw [hpk]
            exact List.mem_cons_self k ks
          by_cases hm2 : (l, m) ∈ ks <;> simp [hm2, hmem]
        · rw [if_neg hpk] at hn he2 hw hs
          refine ⟨hn, he2, hw, ?_⟩
          rw [hs]
          by_cases hm2 : (l, m) ∈ ks
          · have : (l, m) ∈ k :: ks := List.mem_cons_of_mem k hm2
            simp [hm2, this]
          · have : (l, m) ∉ k :: ks := by
              rw [List.mem_cons]
              rintro (h | h)
              · exact hpk h
              · exact hm2 h
            simp [hm2, this]

theorem setLightsChosen_spec (s : Controller) (ks : List Key) (s' : Controller)
    (h : setLightsChosen s ks = some s') :
    s'.exit_capacity = s.exit_capacity ∧ s'.turn_map = s.turn_map ∧
    s'.conflicts = s.conflicts ∧ s'.ambulances = s.ambulances ∧
    s'.current_green = s.current_green ∧ s'.lanes.length = s.lanes.length ∧
    (∀ l, alook s'.lanes l = none ↔ alook s.lanes l = none) ∧
    (∀ l ld, alook s.lanes l = some ld → ∃ ld', alook s'.lanes l = some ld' ∧
      ∀ m, (ld' m).normal = (ld m).normal ∧
        (ld' m).emergency = (ld m).emergency ∧
        (ld' m).wait = (ld m).wait ∧
        (ld' m).state = if (l, m) ∈ ks then [0, 0, 1] else [1, 0, 0]) := by
  unfold setLightsChosen at h
  obtain ⟨he, htm, hcf, hab, hcg, hlen, hnone, hcell⟩ := greenFold_spec ks _ _ h
  have hred := fun l =>
    @alook_mapVal String LaneData LaneData _ s.lanes
      (fun _ ld => fun m => { ld m with state := [1, 0, 0] }) l
  refine ⟨he, htm, hcf, hab, hcg, by simpa using hlen, ?_, ?_⟩
  · intro l
    rw [hnone l, hred l]
    cases alook s.lanes l <;> simp
  · intro l ld hld
    have h1 := hred l
    rw [hld] at h1
    simp only [Option.map_some'] at h1
    obtain ⟨ld', hld', hprops⟩ := hcell l _ h1
    refine ⟨ld', hld', fun m => ?_⟩
    obtain ⟨hn, he2, hw, hs⟩ := hprops m
    exact ⟨hn, he2, hw, by simpa using hs⟩


/-! ## Machinery: the cycle tail (waits, commit, returned lights) -/

theorem update_waits_alook (s : Controller) (chosen : List Key) (l : String) :
    alook (update_waits s chosen).lanes l =
      (alook s.lanes l).map (fun ld => fun m =>
        if (l, m) ∈ chosen then { ld m with wait := 0 }
        else { ld m with wait := (ld m).wait + 1 }) :=
  @alook_mapVal String LaneData LaneData _ s.lanes (fun l ld => fun m =>
    if (l, m) ∈ chosen then { ld m with wait := 0 }
    else { ld m with wait := (ld m).wait + 1 }) l

theorem lightsOf_alook (s : Controller) (l : String) :
    alook (lightsOf s) l = (alook s.lanes l).map (fun ld => fun m => (ld m).state) :=
  @alook_mapVal String LaneData (Mov → List Nat) _ s.lanes
    (fun _ ld => fun m => (ld m).state) l

theorem commitFold_spec :
    ∀ (fl : Flat) (t t' : Controller), fl.foldlM commitStep t = some t' →
      t'.exit_capacity = t.exit_capacity ∧ t'.turn_map = t.turn_map ∧
      t'.conflicts = t.conflicts ∧ t'.ambulances = t.ambulances ∧
      t'.current_green = t.current_green ∧ t'.lanes.length = t.lanes.length ∧
      (∀ l, alook t'.lanes l = none ↔ alook t.lanes l = none) ∧
      (∀ l ld, alook t.lanes l = some ld → ∃ ld', alook t'.lanes l = some ld' ∧
        ∀ m, (ld' m).emergency = (ld m).emergency ∧
          (ld' m).wait = (ld m).wait ∧
          (ld' m).state = (ld m).state) := by
  intro fl
  induction fl with
  | nil =>
      intro t t' h
      cases Option.some.inj h
      exact ⟨rfl, rfl, rfl, rfl, rfl, rfl, fun l => Iff.rfl,
        fun l ld hld => ⟨ld, hld, fun m => ⟨rfl, rfl, rfl⟩⟩⟩
  | cons kv fl ih =>
      intro t t' h
      rw [List.foldlM_cons] at h
      obtain ⟨t1, hstep, h⟩ := bind_some h
      obtain ⟨ld0, hld0, hstep⟩ := bind_some hstep
      cases Option.some.inj hstep
      obtain ⟨he, htm, hcf, hab, hcg, hlen, hnone, hcell⟩ := ih _ _ h
      have hsetlen : (setCell t kv.1.1 kv.1.2
          (fun c => { c with normal := kv.2.normal })).lanes.length =
          t.lanes.length := by
        simp [setCell, aset]
      refine ⟨he, htm, hcf, hab, hcg, hlen.trans hsetlen, ?_, ?_⟩
      · intro l
        rw [hnone l, alook_setCell]
        cases alook t.lanes l <;> simp
      · intro l ld hld
        have h1 := alook_setCell t kv.1.1 kv.1.2
          (fun c => { c with normal := kv.2.normal }) l
        rw [hld] at h1
        simp only [Option.map_some'] at h1
        obtain ⟨ld', hld', hprops⟩ := hcell l _ h1
        refine ⟨ld', hld', fun m => ?_⟩
        obtain ⟨he2, hw, hs⟩ := hprops m
        by_cases hlk : l = kv.1.1
        · rw [if_pos hlk] at he2 hw hs
          by_cases hmk : m = kv.1.2
          · exact ⟨by simpa [updMov, hmk] using he2, by simpa [updMov, hmk] using hw,
              by simpa [updMov, hmk] using hs⟩
          · exact ⟨by simpa [updMov, hmk] using he2, by simpa [updMov, hmk] using hw,
              by simpa [updMov, hmk] using hs⟩
        · rw [if_neg hlk] at he2 hw hs
          exact ⟨he2, hw, hs⟩

theorem cycleTail_spec (s : Controller) (flat : Flat) (ks : List Key) (g : ℚ)
    (rng : Nat → Nat) (lights : Lights) (s7 : Controller)
    (h : cycleTail s flat ks g rng = some (lights, s7)) :
    lights = lightsOf s7 ∧
    s7.exit_capacity = s.exit_capacity ∧ s7.turn_map = s.turn_map ∧
    s7.conflicts = s.conflicts ∧ s7.ambulances = s.ambulances ∧
    s7.current_green = s.current_green ∧ s7.lanes.length = s.lanes.length ∧
    (∀ l, alook s7.lanes l = none ↔ alook s.lanes l = none) ∧
    (∀ l ld, alook s.lanes l = some ld → ∃ ld', alook s7.lanes l = some ld' ∧
      ∀ m, (ld' m).state = (ld m).state ∧
        (ld' m).wait = if (l, m) ∈ ks then 0 else (ld m).wait + 1) := by
  unfold cycleTail at h
  obtain ⟨flat2, -, h⟩ := bind_some h
  obtain ⟨s7', hcommit, h⟩ := bind_some h
  obtain ⟨h1, h2⟩ := Prod.mk.inj (Option.some.inj h)
  subst h1
  subst h2
  obtain ⟨he, htm, hcf, hab, hcg, hlen, hnone, hcell⟩ := commitFold_spec _ _ _ hcommit
  have hwlen : (update_waits s ks).lanes.length = s.lanes.length := by
    simp [update_waits]
  refine ⟨rfl, he, htm, hcf, hab, hcg, hlen.trans hwlen, ?_, ?_⟩
  · intro l
    rw [hnone l, update_waits_alook]
    cases alook s.lanes l <;> simp
  · intro l ld hld
    have h1 := update_waits_alook s ks l
    rw [hld] at h1
    simp only [Option.map_some'] at h1
    obtain ⟨ld', hld', hprops⟩ := hcell l _ h1
    refine ⟨ld', hld', fun m => ?_⟩
    obtain ⟨he2, hw, hs⟩ := hprops m
    by_cases hmem : (l, m) ∈ ks
    · exact ⟨by simpa [hmem] using hs, by simpa [hmem] using hw⟩
    · exact ⟨by simpa [hmem] using hs, by simpa [hmem] using hw⟩


/-! ## Machinery: preservation through ingestion, planning, ensure -/

theorem ingPres_refl (A : Controller) : ingPres A A :=
  ⟨rfl, rfl, rfl, rfl, rfl, rfl, rfl, fun _ => Iff.rfl,
    fun _ ld hld => ⟨ld, hld, fun _ => ⟨rfl, rfl⟩⟩⟩

theorem ingPres_trans {A B C : Controller} (h1 : ingPres A B)
    (h2 : ingPres B C) : ingPres A C := by
  obtain ⟨e1, t1, c1, a1, g1, p1, n1, i1, l1⟩ := h1
  obtain ⟨e2, t2, c2, a2, g2, p2, n2, i2, l2⟩ := h2
  refine ⟨e2.trans e1, t2.trans t1, c2.trans c1, a2.trans a1, g2.trans g1,
    p2.trans p1, n2.trans n1, fun l => (i2 l).trans (i1 l), ?_⟩
  intro l ld hld
  obtain ⟨ld1, hld1, hp1⟩ := l1 l ld hld
  obtain ⟨ld2, hld2, hp2⟩ := l2 l ld1 hld1
  exact ⟨ld2, hld2, fun m => ⟨(hp2 m).1.trans (hp1 m).1, (hp2 m).2.trans (hp1 m).2⟩⟩

theorem ingestStep_pres (e : Entry) (q q' : Controller × Flat) (mv : Mov)
    (h : ingestStep e q mv = some q') : ingPres q.1 q'.1 := by
  unfold ingestStep at h
  obtain ⟨ld0, hld0, h⟩ := bind_some h
  cases Option.some.inj h
  refine ⟨rfl, rfl, rfl, rfl, rfl, rfl, by simp [setCell, aset], ?_, ?_⟩
  · intro l
    rw [alook_setCell]
    cases alook q.1.lanes l <;> simp
  · intro l ld hld
    have h1 := alook_setCell q.1 e.lane_id mv
      (fun c => { c with
        normal := (alook e.movs mv).getD (ld0 mv).normal
        emergency := (alook e.emergency mv).getD 0 }) l
    rw [hld] at h1
    simp only [Option.map_some'] at h1
    refine ⟨_, h1, fun m => ?_⟩
    by_cases hlk : l = e.lane_id
    · rw [if_pos hlk]
      by_cases hmk : m = mv <;> simp [updMov, hmk]
    · rw [if_neg hlk]
      exact ⟨rfl, rfl⟩

theorem ingestEntry_pres (p q : Controller × Flat) (e : Entry)
    (h : ingestEntry p e = some q) : ingPres p.1 q.1 := by
  unfold ingestEntry at h
  have hgen : ∀ (ms : List Mov) (p q : Controller × Flat),
      ms.foldlM (ingestStep e) p = some q → ingPres p.1 q.1 := by
    intro ms
    induction ms with
    | nil =>
        intro p q h
        cases Option.some.inj h
        exact ingPres_refl _
    | cons mv t ih =>
        intro p q h
        rw [List.foldlM_cons] at h
        obtain ⟨q1, hstep, h⟩ := bind_some h
        exact ingPres_trans (ingestStep_pres e p q1 mv hstep) (ih q1 q h)
  exact hgen movements p q h

theorem ingestAll_pres (input : List Entry) :
    ∀ (p : Controller × Flat) (q : Controller × Flat),
      input.foldlM ingestEntry p = some q → ingPres p.1 q.1 := by
  induction input with
  | nil =>
      intro p q h
      cases Option.some.inj h
      exact ingPres_refl _
  | cons e t ih =>
      intro p q h
      rw [List.foldlM_cons] at h
      obtain ⟨q1, hstep, h⟩ := bind_some h
      exact ingPres_trans (ingestEntry_pres p q1 e hstep) (ih q1 q h)

theorem plan_pres (s : Controller) (now : ℚ) (s' : Controller)
    (h : plan_ambulances s now = some s') :
    s'.lanes = s.lanes ∧ s'.exit_capacity = s.exit_capacity ∧
    s'.turn_map = s.turn_map ∧ s'.conflicts = s.conflicts ∧
    s'.ambulances = s.ambulances ∧ s'.current_green = s.current_green ∧
    s'.last_emergency_lane = s.last_emergency_lane := by
  obtain ⟨jobs, -, h⟩ := bind_some h
  obtain ⟨sched, -, h⟩ := bind_some h
  cases Option.some.inj h
  exact ⟨rfl, rfl, rfl, rfl, rfl, rfl, rfl⟩

theorem alook_append_cases {α β : Type} [DecidableEq α] (l1 l2 : List (α × β))
    (y : α) {b : β} (h : alook (l1 ++ l2) y = some b) :
    alook l1 y = some b ∨ (alook l1 y = none ∧ alook l2 y = some b) := by
  cases h1 : alook l1 y with
  | none => exact Or.inr ⟨rfl, by rw [alook_append_right _ h1] at h; exact h⟩
  | some b' =>
      have h2 := (alook_append_left l2 h1).symm.trans h
      exact Or.inl h2

theorem ensure_lane_keep (s : Controller) (x l : String) {ld : LaneData}
    (h : alook s.lanes l = some ld) :
    alook (ensure_lane s x).lanes l = some ld := by
  unfold ensure_lane
  by_cases hx : (alook s.lanes x).isSome
  · rw [if_pos hx]; exact h
  · rw [if_neg hx]; exact alook_append_left _ h

theorem ensureAll_keep (input : List Entry) :
    ∀ (s : Controller) (l : String) (ld : LaneData),
      alook s.lanes l = some ld → alook (ensureAll s input).lanes l = some ld := by
  induction input with
  | nil => intro s l ld h; exact h
  | cons e t ih =>
      intro s l ld h
      exact ih (ensure_lane s e.lane_id) l ld (ensure_lane_keep s e.lane_id l h)


/-! ## Machinery: the policy cascade -/

theorem apply_amb_spec (s : Controller) (now : ℚ) (b : Bool) (s' : Controller)
    (h : apply_ambulance_policy s now = some (b, s')) :
    (b = false ∧ s' = s) ∨
    (b = true ∧ ∃ greens, s'.current_green = some ("ambulance_multi", greens) ∧
      okPair s greens ∧
      s'.exit_capacity = s.exit_capacity ∧ s'.turn_map = s.turn_map ∧
      s'.conflicts = s.conflicts ∧ s'.ambulances = s.ambulances ∧
      s'.lanes.length = s.lanes.length ∧
      (∀ l, alook s'.lanes l = none ↔ alook s.lanes l = none) ∧
      (∀ l ld, alook s.lanes l = some ld → ∃ ld', alook s'.lanes l = some ld' ∧
        ∀ m, (ld' m).normal = (ld m).normal ∧
          (ld' m).emergency = (ld m).emergency ∧
          (ld' m).wait = (ld m).wait ∧
          (ld' m).state = if (l, m) ∈ greens then [0, 0, 1] else [1, 0, 0])) := by
  unfold apply_ambulance_policy at h
  cases hrun : ambRunning s now with
  | nil =>
      rw [hrun] at h
      obtain ⟨h1, h2⟩ := Prod.mk.inj (Option.some.inj h)
      exact Or.inl ⟨h1.symm, h2.symm⟩
  | cons r0 rs =>
      rw [hrun] at h
      obtain ⟨greens0, hbg, h⟩ := bind_some h
      obtain ⟨s2, hsl, h⟩ := bind_some h
      obtain ⟨h1, h2⟩ := Prod.mk.inj (Option.some.inj h)
      subst h2
      refine Or.inr ⟨h1.symm, if greens0.isEmpty then [r0.mov] else greens0,
        rfl, ?_, ?_⟩
      · by_cases he : greens0.isEmpty
        · simp only [he, if_true]
          exact okPair_singleton s r0.mov
        · simp only [he, if_false]
          exact buildGreens_ok s (r0 :: rs) [] greens0 (okPair_nil s) hbg
      · obtain ⟨he, htm, hcf, hab, hcg, hlen, hnone, hcell⟩ :=
          setLightsChosen_spec s _ s2 hsl
        exact ⟨he, htm, hcf, hab, hlen, hnone, hcell⟩

theorem max_two_max_one (x : Nat) : max 2 (max 1 x) = max 2 x := by
  rcases Nat.le_total x 1 with h | h
  · rw [Nat.max_eq_left h, Nat.max_eq_left (by omega), Nat.max_eq_left (by omega)]
  · rw [Nat.max_eq_right h]

theorem runPolicy_spec (s : Controller) (flat : Flat) (now : ℚ)
    (ks : List Key) (g : ℚ) (s5 : Controller)
    (h : runPolicy s flat now = some (ks, g, s5)) :
    okPair s ks ∧
    s5.exit_capacity = s.exit_capacity ∧ s5.turn_map = s.turn_map ∧
    s5.conflicts = s.conflicts ∧ s5.ambulances = s.ambulances ∧
    s5.lanes.length = s.lanes.length ∧
    (∀ l, alook s5.lanes l = none ↔ alook s.lanes l = none) ∧
    (∀ l ld, alook s.lanes l = some ld → ∃ ld', alook s5.lanes l = some ld' ∧
      ∀ m, (ld' m).normal = (ld m).normal ∧
        (ld' m).emergency = (ld m).emergency ∧
        (ld' m).wait = (ld m).wait ∧
        (ld' m).state = if (l, m) ∈ ks then [0, 0, 1] else [1, 0, 0]) ∧
    (∀ ks0, s5.current_green = some ("normal_multi", ks0) →
      ks0 = ks ∧ ks.length ≤ max 2 (s.lanes.length / 2)) := by
  unfold runPolicy at h
  obtain ⟨⟨b, sA⟩, hap, h⟩ := bind_some h
  cases b with
  | true =>
      rcases apply_amb_spec s now true sA hap with ⟨hcon, -⟩ | ⟨-, greens, hcg,
        hok, he, htm, hcf, hab, hlen, hnone, hcell⟩
      · cases hcon
      simp only [if_pos rfl] at h
      rw [hcg] at h
      obtain ⟨h1, h23⟩ := Prod.mk.inj (Option.some.inj h)
      obtain ⟨h2, h3⟩ := Prod.mk.inj h23
      subst h1
      subst h3
      refine ⟨hok, he, htm, hcf, hab, hlen, hnone, hcell, ?_⟩
      intro ks0 hcg0
      rw [hcg] at hcg0
      obtain ⟨htag, -⟩ := Prod.mk.inj (Option.some.inj hcg0)
      exact absurd htag (by decide)
  | false =>
      rcases apply_amb_spec s now false sA hap with ⟨-, hseq⟩ | ⟨hcon, -⟩
      · rw [hseq] at h
        simp only [Bool.false_eq_true, if_false] at h
        cases hce : (choose_emergency_movement s flat).1 with
        | some k =>
            rw [hce] at h
            obtain ⟨gq, -, h⟩ := bind_some h
            obtain ⟨s2, hsl, h⟩ := bind_some h
            obtain ⟨h1, h23⟩ := Prod.mk.inj (Option.some.inj h)
            obtain ⟨h2, h3⟩ := Prod.mk.inj h23
            subst h1
            subst h3
            obtain ⟨he, htm, hcf, hab, hcg, hlen, hnone, hcell⟩ :=
              setLightsChosen_spec _ _ s2 hsl
            refine ⟨okPair_singleton s k, he, htm, hcf, hab, hlen, hnone,
              hcell, ?_⟩
            intro ks0 hcg0
            obtain ⟨htag, -⟩ := Prod.mk.inj (Option.some.inj hcg0)
            exact absurd htag (by decide)
        | none =>
            rw [hce] at h
            obtain ⟨seed, -, h⟩ := bind_some h
            obtain ⟨ks1, hcp, h⟩ := bind_some h
            obtain ⟨gs, -, h⟩ := bind_some h
            obtain ⟨s2, hsl, h⟩ := bind_some h
            obtain ⟨h1, h23⟩ := Prod.mk.inj (Option.some.inj h)
            obtain ⟨h2, h3⟩ := Prod.mk.inj h23
            subst h1
            subst h3
            obtain ⟨he, htm, hcf, hab, hcg, hlen, hnone, hcell⟩ :=
              setLightsChosen_spec _ _ s2 hsl
            have hok1 := coPhase_ok _ seed _ _ [seed] ks1
              (okPair_singleton _ seed) hcp
            refine ⟨hok1, he, htm, hcf, hab, hlen, hnone, hcell, ?_⟩
            intro ks0 hcg0
            obtain ⟨-, htag⟩ := Prod.mk.inj (Option.some.inj hcg0)
            refine ⟨htag.symm, ?_⟩
            have hb1 : 1 ≤ max 1 (s.lanes.length / 2) := le_max_left 1 _
            have := coPhase_len _ seed (max 1 (s.lanes.length / 2)) hb1 _ ks1 hcp
            rw [max_two_max_one] at this
            exact this
      · cases hcon


/-! ## Machinery: the decomposition of `update` -/

theorem conflictsGet_congr {s1 s2 : Controller} (h : s1.conflicts = s2.conflicts)
    (k : Key) : conflictsGet s1 k = conflictsGet s2 k := by
  unfold conflictsGet
  rw [h]

theorem okPair_congr {s1 s2 : Controller} (h : s1.conflicts = s2.conflicts)
    {ks : List Key} (hok : okPair s2 ks) : okPair s1 ks := by
  intro a ha b hb hab
  rw [conflictsGet_congr h, conflictsGet_congr h]
  exact hok a ha b hb hab

theorem update_parts (s : Controller) (input : List Entry) (now : ℚ)
    (rng : Nat → Nat) (lights : Lights) (s' : Controller)
    (h : update s input now rng = some (lights, s')) :
    ∃ (sf : Controller × Flat) (s4 : Controller) (pol : List Key × ℚ × Controller),
      ingestAll (rebuild_conflicts (rebuild_turn_map (ensureAll s input))) input =
        some sf ∧
      plan_ambulances sf.1 now = some s4 ∧
      runPolicy s4 sf.2 now = some pol ∧
      cycleTail pol.2.2 sf.2 pol.1 pol.2.1 rng = some (lights, s') := by
  unfold update at h
  obtain ⟨sf, h1, h⟩ := bind_some h
  obtain ⟨s4, h2, h⟩ := bind_some h
  obtain ⟨pol, h3, h⟩ := bind_some h
  exact ⟨sf, s4, pol, h1, h2, h3, h⟩

theorem update_spec (s : Controller) (input : List Entry) (now : ℚ)
    (rng : Nat → Nat) (lights : Lights) (s' : Controller)
    (h : update s input now rng = some (lights, s')) :
    ∃ ks : List Key,
      okPair s' ks ∧
      (∀ l, alook s'.lanes l = none ↔ alook (ensureAll s input).lanes l = none) ∧
      lights = lightsOf s' ∧
      (∀ k : Key, lightAtL lights k = some [0, 0, 1] → k ∈ ks) ∧
      (∀ ks0, s'.current_green = some ("normal_multi", ks0) →
        ks0 = ks ∧ ks.length ≤ max 2 (s'.lanes.length / 2)) ∧
      (∀ l ld1, alook (ensureAll s input).lanes l = some ld1 → ∀ m,
        ∃ ld', alook s'.lanes l = some ld' ∧
          lightAtL lights (l, m) = some ((ld' m).state) ∧
          ((l, m) ∈ ks → (ld' m).wait = 0 ∧ (ld' m).state = [0, 0, 1]) ∧
          ((l, m) ∉ ks → (ld' m).wait = (ld1 m).wait + 1 ∧
            (ld' m).state = [1, 0, 0])) := by
  obtain ⟨sf, s4, pol, h1, h2, h3, h4⟩ := update_parts s input now rng lights s' h
  obtain ⟨hlights, hte, httm, htcf, htab, htcg, htlen, htnone, htcell⟩ :=
    cycleTail_spec _ _ _ _ _ _ _ h4
  obtain ⟨hok, hpe, hptm, hpcf, hpab, hplen, hpnone, hpcell, htag⟩ :=
    runPolicy_spec _ _ _ _ _ _ h3
  obtain ⟨hql, hqe, hqtm, hqcf, hqab, hqcg, hqle⟩ := plan_pres sf.1 now s4 h2
  have hing := ingestAll_pres input
    (rebuild_conflicts (rebuild_turn_map (ensureAll s input)), []) sf h1
  obtain ⟨hie, hitm, hicf, hiab, hicg, hipl, hilen, hinone, hicell⟩ := hing
  have hnoneAll : ∀ l, alook s'.lanes l = none ↔
      alook (ensureAll s input).lanes l = none := by
    intro l
    rw [htnone l, hpnone l, hql, hinone l]
    rfl
  have hcellAll : ∀ l ld1, alook (ensureAll s input).lanes l = some ld1 → ∀ m,
      ∃ ld', alook s'.lanes l = some ld' ∧
        lightAtL lights (l, m) = some ((ld' m).state) ∧
        ((l, m) ∈ pol.1 → (ld' m).wait = 0 ∧ (ld' m).state = [0, 0, 1]) ∧
        ((l, m) ∉ pol.1 → (ld' m).wait = (ld1 m).wait + 1 ∧
          (ld' m).state = [1, 0, 0]) := by
    intro l ld1 hld1 m
    obtain ⟨ld3, hld3, hp3⟩ := hicell l ld1 hld1
    have hld3' : alook s4.lanes l = some ld3 := by rw [hql]; exact hld3
    obtain ⟨ld5, hld5, hp5⟩ := hpcell l ld3 hld3'
    obtain ⟨ld7, hld7, hp7⟩ := htcell l ld5 hld5
    refine ⟨ld7, hld7, ?_, ?_, ?_⟩
    · rw [hlights]
      unfold lightAtL
      rw [lightsOf_alook, hld7]
      rfl
    · intro hmem
      refine ⟨?_, ?_⟩
      · rw [(hp7 m).2, if_pos hmem]
      · rw [(hp7 m).1, (hp5 m).2.2.2]
        rw [if_pos hmem]
    · intro hmem
      refine ⟨?_, ?_⟩
      · rw [(hp7 m).2, if_neg hmem, (hp5 m).2.2.1, (hp3 m).1]
      · rw [(hp7 m).1, (hp5 m).2.2.2]
        rw [if_neg hmem]
  refine ⟨pol.1, ?_, hnoneAll, hlights, ?_, ?_, hcellAll⟩
  · exact okPair_congr (htcf.trans hpcf) hok
  · intro k hk
    rw [hlights] at hk
    unfold lightAtL at hk
    rw [lightsOf_alook] at hk
    cases h7 : alook s'.lanes k.1 with
    | none => rw [h7] at hk; cases hk
    | some ld7 =>
        rw [h7] at hk
        simp only [Option.map_some'] at hk
        have hstate : (ld7 k.2).state = [0, 0, 1] := Option.some.inj hk
        have hp : ¬ alook (ensureAll s input).lanes k.1 = none := by
          intro hcon
          rw [← hnoneAll k.1] at hcon
          rw [hcon] at h7
          cases h7
        obtain ⟨ld1, hld1⟩ := Option.ne_none_iff_exists'.mp hp
        obtain ⟨ld', hld', hlight, hmemT, hmemF⟩ := hcellAll k.1 ld1 hld1 k.2
        have he : ld' = ld7 := Option.some.inj (hld'.symm.trans h7)
        by_contra hni
        obtain ⟨-, hred⟩ := hmemF hni
        rw [he, hstate] at hred
        exact absurd hred (by decide)
  · intro ks0 hcg0
    rw [htcg] at hcg0
    obtain ⟨heq, hlen⟩ := htag ks0 hcg0
    refine ⟨heq, ?_⟩
    have hlfin : s'.lanes.length = s4.lanes.length := htlen.trans hplen
    rw [hlfin]
    exact hlen


/-! ## Machinery: one-hot lights -/

theorem update_lightsOK (s : Controller) (input : List Entry) (now : ℚ)
    (rng : Nat → Nat) (lights : Lights) (s' : Controller)
    (h : update s input now rng = some (lights, s')) :
    LightsOK s' ∧ LightsListOK lights := by
  obtain ⟨ks, -, hnone, hlights, -, -, hcell⟩ := update_spec s input now rng lights s' h
  have hok : LightsOK s' := by
    intro l ld' hld' m
    have hp : ¬ alook (ensureAll s input).lanes l = none := by
      intro hcon
      rw [← hnone l] at hcon
      rw [hcon] at hld'
      cases hld'
    obtain ⟨ld1, hld1⟩ := Option.ne_none_iff_exists'.mp hp
    obtain ⟨ld'', hld'', -, hmemT, hmemF⟩ := hcell l ld1 hld1 m
    have he : ld'' = ld' := Option.some.inj (hld''.symm.trans hld')
    by_cases hm : (l, m) ∈ ks
    · exact Or.inr (he ▸ (hmemT hm).2)
    · exact Or.inl (he ▸ (hmemF hm).2)
  refine ⟨hok, ?_⟩
  intro l f hlf m
  rw [hlights, lightsOf_alook] at hlf
  cases h7 : alook s'.lanes l with
  | none => rw [h7] at hlf; cases hlf
  | some ld7 =>
      rw [h7] at hlf
      simp only [Option.map_some'] at hlf
      have hf : f = fun m => (ld7 m).state := (Option.some.inj hlf).symm
      rw [hf]
      exact hok l ld7 h7 m

/-! ## Claim C1 (mutual exclusion of conflicting greens) -/

/-- C1: for every successful `update`, no two distinct MovementKeys that
are simultaneously GREEN in the returned light mapping stand in the
conflicts relation, in every phase kind (the green set of each policy
path is built through pairwise `movements_compatible` checks). -/
theorem mutual_exclusion_of_greens (s : Controller) (input : List Entry)
    (now : ℚ) (rng : Nat → Nat) (lights : Lights) (s' : Controller)
    (h : update s input now rng = some (lights, s'))
    (k1 k2 : Key) (h12 : k1 ≠ k2)
    (hg1 : lightAtL lights k1 = some [0, 0, 1])
    (hg2 : lightAtL lights k2 = some [0, 0, 1]) :
    k1 ∉ conflictsGet s' k2 ∧ k2 ∉ conflictsGet s' k1 := by
  obtain ⟨ks, hok, -, -, hmem, -, -⟩ := update_spec s input now rng lights s' h
  exact hok k1 (hmem k1 hg1) k2 (hmem k2 hg2) h12

/-- Witness for C1 on a concrete two-lane snapshot where both `straight`
movements are green together. -/
theorem mutual_exclusion_of_greens_witness :
    optHolds (update initController [entryA5, entryB5] 0 rngZero)
      (fun p => ("A", Mov.straight) ∉ conflictsGet p.2 ("B", Mov.straight) ∧
        ("B", Mov.straight) ∉ conflictsGet p.2 ("A", Mov.straight)) := by
  obtain ⟨p, hp⟩ := Option.isSome_iff_exists.mp
    (show (update initController [entryA5, entryB5] 0 rngZero).isSome = true by
      with_unfolding_all rfl)
  rw [hp]
  have e1 : (update initController [entryA5, entryB5] 0 rngZero).map
      (fun p => lightAtL p.1 ("A", Mov.straight)) = some (some [0, 0, 1]) := by
    with_unfolding_all rfl
  have e2 : (update initController [entryA5, entryB5] 0 rngZero).map
      (fun p => lightAtL p.1 ("B", Mov.straight)) = some (some [0, 0, 1]) := by
    with_unfolding_all rfl
  rw [hp] at e1 e2
  simp only [Option.map_some'] at e1 e2
  exact mutual_exclusion_of_greens initController [entryA5, entryB5] 0 rngZero
    p.1 p.2 hp ("A", Mov.straight) ("B", Mov.straight) (by decide)
    (Option.some.inj e1) (Option.some.inj e2)

/-! ## Claim C9 (wait update) -/

/-- C9: after every successful `update`, `wait` is 0 for every MovementKey
granted GREEN this cycle and `wait` is the pre-cycle value plus one for
every other MovementKey of the topology, on every policy path.  The
pre-cycle value is read after `ensure_lane` (new lanes enter at 0), and
`ensure_lane` does not change the value for lanes already present. -/
theorem wait_update_per_cycle (s : Controller) (input : List Entry) (now : ℚ)
    (rng : Nat → Nat) (lights : Lights) (s' : Controller)
    (h : update s input now rng = some (lights, s')) :
    (∀ l ld1, alook (ensureAll s input).lanes l = some ld1 → ∀ m,
      ∃ ld', alook s'.lanes l = some ld' ∧
        lightAtL lights (l, m) = some ((ld' m).state) ∧
        ((ld' m).state = [0, 0, 1] → (ld' m).wait = 0) ∧
        ((ld' m).state ≠ [0, 0, 1] → (ld' m).wait = (ld1 m).wait + 1)) ∧
    (∀ l ld, alook s.lanes l = some ld →
      alook (ensureAll s input).lanes l = some ld) := by
  obtain ⟨ks, -, -, -, -, -, hcell⟩ := update_spec s input now rng lights s' h
  constructor
  · intro l ld1 hld1 m
    obtain ⟨ld', hld', hlight, hmemT, hmemF⟩ := hcell l ld1 hld1 m
    refine ⟨ld', hld', hlight, ?_, ?_⟩
    · intro hgreen
      by_cases hm : (l, m) ∈ ks
      · exact (hmemT hm).1
      · exact absurd hgreen (by rw [(hmemF hm).2]; decide)
    · intro hng
      by_cases hm : (l, m) ∈ ks
      · exact absurd (hmemT hm).2 hng
      · exact (hmemF hm).1
  · exact fun l ld hld => ensureAll_keep input s l ld hld

/-- Witness for C9: on the concrete two-lane snapshot, `(A, straight)` is
green and its wait resets to 0 while `(A, left)` is red and its wait
becomes 1. -/
theorem wait_update_per_cycle_witness :
    optHolds (update initController [entryA5, entryB5] 0 rngZero)
      (fun p => (alook p.2.lanes "A").map
        (fun ld => ((ld Mov.straight).wait, (ld Mov.left).wait)) = some (0, 1)) := by
  obtain ⟨p, hp⟩ := Option.isSome_iff_exists.mp
    (show (update initController [entryA5, entryB5] 0 rngZero).isSome = true by
      with_unfolding_all rfl)
  rw [hp]
  show (alook p.2.lanes "A").map
    (fun ld => ((ld Mov.straight).wait, (ld Mov.left).wait)) = some (0, 1)
  have hthm := (wait_update_per_cycle initController [entryA5, entryB5] 0 rngZero
    p.1 p.2 hp).1
  have hled : alook (ensureAll initController [entryA5, entryB5]).lanes "A" =
      some (fun _ => ⟨0, 0, 0, [1, 0, 0]⟩) := by with_unfolding_all rfl
  obtain ⟨ldS, hldS, hlS, hgS, -⟩ := hthm "A" _ hled Mov.straight
  obtain ⟨ldL, hldL, hlL, -, hnL⟩ := hthm "A" _ hled Mov.left
  have heq : ldL = ldS := Option.some.inj (hldL.symm.trans hldS)
  subst heq
  have e1 : (update initController [entryA5, entryB5] 0 rngZero).map
      (fun p => lightAtL p.1 ("A", Mov.straight)) = some (some [0, 0, 1]) := by
    with_unfolding_all rfl
  have e2 : (update initController [entryA5, entryB5] 0 rngZero).map
      (fun p => lightAtL p.1 ("A", Mov.left)) = some (some [1, 0, 0]) := by
    with_unfolding_all rfl
  rw [hp] at e1 e2
  simp only [Option.map_some'] at e1 e2
  have hs1 : (ldL Mov.straight).state = [0, 0, 1] :=
    Option.some.inj ((Option.some.inj e1).symm.trans hlS).symm
  have hs2 : (ldL Mov.left).state = [1, 0, 0] :=
    Option.some.inj ((Option.some.inj e2).symm.trans hlL).symm
  rw [hldS]
  simp only [Option.map_some']
  rw [hgS hs1, hnL (by rw [hs2]; decide)]
  rfl

/-! ## Claim C4 amended (co-phase size bound) -/

/-- C4 amended: for every `update` that emits a NORMAL phase, the set of
movements granted GREEN together has size at most
`max(2, ⌊n_lanes / 2⌋)` — the loop can overshoot the source's intended
`max(1, ⌊n_lanes / 2⌋)` by one because the size test runs only after a
possible append, which matters exactly when that bound is 1. -/
theorem cophase_size_bound_amended (s : Controller) (input : List Entry)
    (now : ℚ) (rng : Nat → Nat) (lights : Lights) (s' : Controller)
    (h : update s input now rng = some (lights, s'))
    (ks0 : List Key)
    (htag : s'.current_green = some ("normal_multi", ks0)) :
    (∀ k : Key, lightAtL lights k = some [0, 0, 1] → k ∈ ks0) ∧
    ks0.length ≤ max 2 (s'.lanes.length / 2) := by
  obtain ⟨ks, -, -, -, hmem, htagc, -⟩ := update_spec s input now rng lights s' h
  obtain ⟨heq, hlen⟩ := htagc ks0 htag
  subst heq
  exact ⟨hmem, hlen⟩

/-- Witness for the amended C4 bound on the concrete two-lane snapshot
(two greens, bound `max(2, 1) = 2`). -/
theorem cophase_size_bound_amended_witness :
    optHolds (update initController [entryA5, entryB5] 0 rngZero)
      (fun p => [("A", Mov.straight), ("B", Mov.straight)].length ≤
        max 2 (p.2.lanes.length / 2)) := by
  obtain ⟨p, hp⟩ := Option.isSome_iff_exists.mp
    (show (update initController [entryA5, entryB5] 0 rngZero).isSome = true by
      with_unfolding_all rfl)
  rw [hp]
  have e1 : (update initController [entryA5, entryB5] 0 rngZero).map
      (fun p => p.2.current_green) =
      some (some ("normal_multi", [("A", Mov.straight), ("B", Mov.straight)])) := by
    with_unfolding_all rfl
  rw [hp] at e1
  simp only [Option.map_some'] at e1
  exact (cophase_size_bound_amended initController [entryA5, entryB5] 0 rngZero
    p.1 p.2 hp [("A", Mov.straight), ("B", Mov.straight)]
    (Option.some.inj e1)).2

/-! ## Claim C10 (lights are one-hot, never yellow) -/

/-- C10: in every reachable controller state, every stored light is the
one-hot RED `[1,0,0]` or GREEN `[0,0,1]` — YELLOW `[0,1,0]` is never
assigned — and every light mapping returned by `update` likewise contains
only RED and GREEN. -/
theorem lights_one_hot (s : Controller) (hs : Reachable s) :
    LightsOK s ∧
    (∀ (input : List Entry) (now : ℚ) (rng : Nat → Nat) (lights : Lights)
      (s' : Controller), update s input now rng = some (lights, s') →
        LightsListOK lights) := by
  induction hs with
  | init =>
      refine ⟨?_, ?_⟩
      · intro l ld hld
        simp [alook] at hld
      · intro input now rng lights s' h
        exact (update_lightsOK _ input now rng lights s' h).2
  | ensure s l hr ih =>
      refine ⟨?_, ?_⟩
      · intro l' ld hld m
        unfold ensure_lane at hld
        by_cases hx : (alook s.lanes l).isSome
        · rw [if_pos hx] at hld
          exact ih.1 l' ld hld m
        · rw [if_neg hx] at hld
          simp only at hld
          rcases alook_append_cases _ _ _ hld with hold | ⟨-, hnew⟩
          · exact ih.1 l' ld hold m
          · unfold alook at hnew
            by_cases hl' : l' = l
            · rw [if_pos hl'] at hnew
              cases Option.some.inj hnew
              exact Or.inl rfl
            · rw [if_neg hl'] at hnew
              cases hnew
      · intro input now rng lights s' h
        exact (update_lightsOK _ input now rng lights s' h).2
  | register s amb_id lane mov eta now hr ih =>
      refine ⟨?_, ?_⟩
      · intro l' ld hld m
        exact ih.1 l' ld hld m
      · intro input now' rng lights s' h
        exact (update_lightsOK _ input now' rng lights s' h).2
  | update_step s input now rng lights s' hr hupd ih =>
      refine ⟨(update_lightsOK s input now rng lights s' hupd).1, ?_⟩
      intro input' now' rng' lights' s'' h
      exact (update_lightsOK s' input' now' rng' lights' s'' h).2

/-- Witness for C10: the single lane of a concrete reachable state carries
a RED-or-GREEN one-hot light. -/
theorem lights_one_hot_witness :
    (((fun _ => (⟨0, 0, 0, [1, 0, 0]⟩ : Cell)) : LaneData) Mov.straight).state =
        [1, 0, 0] ∨
    (((fun _ => (⟨0, 0, 0, [1, 0, 0]⟩ : Cell)) : LaneData) Mov.straight).state =
        [0, 0, 1] :=
  (lights_one_hot (ensure_lane initController "A")
    (Reachable.ensure initController "A" Reachable.init)).1 "A"
    (fun _ => ⟨0, 0, 0, [1, 0, 0]⟩) rfl Mov.straight


/-! ## Machinery: the flow model -/

theorem alook_setFlatNormal (data : Flat) (k : Key) (v : Int) (j : Key) :
    alook (setFlatNormal data k v) j =
      (alook data j).map (fun c => if j = k then { c with normal := v } else c) :=
  alook_aset data k (fun c => { c with normal := v }) j

theorem setFlatNormal_isSome (data : Flat) (k : Key) (v : Int) (j : Key) :
    (alook (setFlatNormal data k v) j).isSome = (alook data j).isSome := by
  rw [alook_setFlatNormal]
  cases alook data j <;> rfl

theorem setFlatNormal_cases (data : Flat) (k : Key) (v : Int) (j : Key)
    (c : FlatCell) (h : alook (setFlatNormal data k v) j = some c) :
    (j = k ∧ ∃ c0, alook data j = some c0 ∧ c = { c0 with normal := v }) ∨
    (j ≠ k ∧ alook data j = some c) := by
  rw [alook_setFlatNormal] at h
  cases hd : alook data j with
  | none => rw [hd] at h; cases h
  | some cj =>
      rw [hd] at h
      simp only [Option.map_some'] at h
      by_cases hjk : j = k
      · rw [if_pos hjk] at h
        exact Or.inl ⟨hjk, cj, rfl, (Option.some.inj h).symm⟩
      · rw [if_neg hjk] at h
        exact Or.inr ⟨hjk, congrArg some (Option.some.inj h)⟩

theorem flowStep_main (s : Controller) (d : ℚ)
    (hF : 0 ≤ pyInt (s.clearance_rate * d)) (data : Flat) (k : Key)
    (data' : Flat) (hNN : NonNegFlat data)
    (h : flowStep s d data k = some data') :
    NonNegFlat data' ∧
    (∀ j, (alook data' j).isSome = (alook data j).isSome) ∧
    (∀ j cj cj', alook data j = some cj → alook data' j = some cj' →
      cj.normal - (if j = k then pyInt (s.clearance_rate * d) else 0) ≤
        cj'.normal) := by
  unfold flowStep at h
  obtain ⟨c0, hc0, h⟩ := bind_some h
  have hc0n : 0 ≤ c0.normal := hNN k c0 hc0
  have hclr : 0 ≤ min c0.normal (pyInt (s.clearance_rate * d)) :=
    le_min hc0n hF
  have ha1 := min_le_right c0.normal (pyInt (s.clearance_rate * d))
  have ha2 := le_max_right (0 : Int)
    (c0.normal - min c0.normal (pyInt (s.clearance_rate * d)))
  have ha3 := le_max_left (0 : Int)
    (c0.normal - min c0.normal (pyInt (s.clearance_rate * d)))
  cases htm : alook s.turn_map k with
  | none =>
      rw [htm] at h
      cases Option.some.inj h
      refine ⟨?_, fun j => setFlatNormal_isSome _ _ _ _, ?_⟩
      · intro j c hj
        rcases setFlatNormal_cases _ _ _ _ _ hj with
          ⟨hjk, c1, hc1, hceq⟩ | ⟨hjk, hcj⟩
        · have hv : c.normal =
              max 0 (c0.normal - min c0.normal (pyInt (s.clearance_rate * d))) := by
            rw [hceq]
          omega
        · exact hNN j c hcj
      · intro j cj cj' hj hj'
        rcases setFlatNormal_cases _ _ _ _ _ hj' with
          ⟨hjk, c1, hc1, hceq⟩ | ⟨hjk, hcj⟩
        · have hv : cj'.normal =
              max 0 (c0.normal - min c0.normal (pyInt (s.clearance_rate * d))) := by
            rw [hceq]
          have hcj0 : cj = c0 := Option.some.inj ((hjk ▸ hj).symm.trans hc0)
          rw [if_pos hjk, hcj0]
          omega
        · have he : cj = cj' := Option.some.inj (hj.symm.trans hcj)
          rw [if_neg hjk, he]
          omega
  | some dest =>
      rw [htm] at h
      obtain ⟨dq, hdq, h⟩ := bind_some h
      obtain ⟨cap, hcap, h⟩ := bind_some h
      obtain ⟨cd, hcd, h⟩ := bind_some h
      cases Option.some.inj h
      have hpush : 0 ≤ min (min c0.normal (pyInt (s.clearance_rate * d)))
          (max 0 (cap - dq)) := le_min hclr (le_max_left 0 _)
      have hNN1 : NonNegFlat (setFlatNormal data k
          (max 0 (c0.normal - min c0.normal (pyInt (s.clearance_rate * d))))) := by
        intro j c hj
        rcases setFlatNormal_cases _ _ _ _ _ hj with
          ⟨hjk, c1, hc1, hceq⟩ | ⟨hjk, hcj⟩
        · have hv : c.normal =
              max 0 (c0.normal - min c0.normal (pyInt (s.clearance_rate * d))) := by
            rw [hceq]
          omega
        · exact hNN j c hcj
      have hcdn : 0 ≤ cd.normal := hNN1 _ cd hcd
      refine ⟨?_, ?_, ?_⟩
      · intro j c hj
        rcases setFlatNormal_cases _ _ _ _ _ hj with
          ⟨hjd, c1, hc1, hceq⟩ | ⟨hjd, hcj⟩
        · have hv : c.normal = cd.normal +
              min (min c0.normal (pyInt (s.clearance_rate * d)))
                (max 0 (cap - dq)) := by
            rw [hceq]
          omega
        · exact hNN1 j c hcj
      · intro j
        rw [setFlatNormal_isSome, setFlatNormal_isSome]
      · intro j cj cj' hj hj'
        rcases setFlatNormal_cases _ _ _ _ _ hj' with
          ⟨hjd, c1, hc1, hceq⟩ | ⟨hjd, hc1⟩
        · have hv : cj'.normal = cd.normal +
              min (min c0.normal (pyInt (s.clearance_rate * d)))
                (max 0 (cap - dq)) := by
            rw [hceq]
          have hc1cd : c1 = cd := Option.some.inj ((hjd ▸ hc1).symm.trans hcd)
          rcases setFlatNormal_cases _ _ _ _ _ hc1 with
            ⟨hjk, c2, hc2, hceq2⟩ | ⟨hjk, hc2⟩
          · have hcdv : cd.normal =
                max 0 (c0.normal - min c0.normal (pyInt (s.clearance_rate * d))) := by
              rw [← hc1cd, hceq2]
            have hcj0 : cj = c0 := Option.some.inj ((hjk ▸ hj).symm.trans hc0)
            rw [if_pos hjk, hcj0]
            omega
          · have hc1cj : c1 = cj := Option.some.inj (hc2.symm.trans hj)
            rw [if_neg hjk, ← hc1cj, hc1cd]
            omega
        · rcases setFlatNormal_cases _ _ _ _ _ hc1 with
            ⟨hjk, c2, hc2, hceq2⟩ | ⟨hjk, hc2⟩
          · have hv : cj'.normal =
                max 0 (c0.normal - min c0.normal (pyInt (s.clearance_rate * d))) := by
              rw [hceq2]
            have hcj0 : cj = c0 := Option.some.inj ((hjk ▸ hj).symm.trans hc0)
            rw [if_pos hjk, hcj0]
            omega
          · have he : cj = cj' := Option.some.inj (hj.symm.trans hc2)
            rw [if_neg hjk, he]
            omega

theorem flowFold_main (s : Controller) (d : ℚ)
    (hF : 0 ≤ pyInt (s.clearance_rate * d)) :
    ∀ (act : List Key) (data dataF : Flat), act.Nodup → NonNegFlat data →
      act.foldlM (flowStep s d) data = some dataF →
      NonNegFlat dataF ∧
      (∀ j, (alook dataF j).isSome = (alook data j).isSome) ∧
      (∀ j cj cjF, alook data j = some cj → alook dataF j = some cjF →
        cj.normal - (if j ∈ act then pyInt (s.clearance_rate * d) else 0) ≤
          cjF.normal) := by
  intro act
  induction act with
  | nil =>
      intro data dataF hnd hNN h
      cases Option.some.inj h
      refine ⟨hNN, fun j => rfl, fun j cj cjF hj hj' => ?_⟩
      cases Option.some.inj (hj.symm.trans hj')
      simp
  | cons a t ih =>
      intro data dataF hnd hNN h
      rw [List.foldlM_cons] at h
      obtain ⟨d1, hstep, h⟩ := bind_some h
      obtain ⟨hna, hndt⟩ := List.nodup_cons.mp hnd
      obtain ⟨hNN1, hpres1, hbound1⟩ := flowStep_main s d hF data a d1 hNN hstep
      obtain ⟨hNNF, hpresF, hboundF⟩ := ih d1 dataF hndt hNN1 h
      refine ⟨hNNF, fun j => (hpresF j).trans (hpres1 j), ?_⟩
      intro j cj cjF hj hjF
      have hj1s : (alook d1 j).isSome = true := by
        rw [hpres1 j, hj]
        rfl
      obtain ⟨c1, hc1⟩ := Option.isSome_iff_exists.mp hj1s
      have hb1 := hbound1 j cj c1 hj hc1
      have hb2 := hboundF j c1 cjF hc1 hjF
      by_cases hja : j = a
      · have hjt : j ∉ t := by rw [hja]; exact hna
        rw [if_pos hja] at hb1
        rw [if_neg hjt] at hb2
        have hm : (j ∈ a :: t) := by rw [hja]; exact List.mem_cons_self a t
        rw [if_pos hm]
        omega
      · rw [if_neg hja] at hb1
        by_cases hjt : j ∈ t
        · rw [if_pos hjt] at hb2
          rw [if_pos (List.mem_cons_of_mem a hjt)]
          omega
        · rw [if_neg hjt] at hb2
          have hnm : j ∉ a :: t := by
            rw [List.mem_cons]
            rintro (hc | hc)
            · exact hja hc
            · exact hjt hc
          rw [if_neg hnm]
          omega

theorem rndFold_keep (active : List Key) (rng : Nat → Nat) :
    ∀ (keys : List Key) (p res : Flat × Nat),
      keys.foldlM (rndStep active rng) p = some res →
      ∀ j, j ∈ active → alook res.1 j = alook p.1 j := by
  intro keys
  induction keys with
  | nil =>
      intro p res h j hj
      cases Option.some.inj h
      rfl
  | cons a t ih =>
      intro p res h j hj
      rw [List.foldlM_cons] at h
      obtain ⟨p1, hstep, h⟩ := bind_some h
      unfold rndStep at hstep
      by_cases ha : a ∈ active
      · rw [if_pos ha] at hstep
        cases Option.some.inj hstep
        exact ih p res h j hj
      · rw [if_neg ha] at hstep
        obtain ⟨c, hc, hstep⟩ := bind_some hstep
        cases Option.some.inj hstep
        rw [ih _ res h j hj]
        simp only
        rw [alook_setFlatNormal]
        have hne : j ≠ a := fun hcon => ha (hcon ▸ hj)
        cases alook p.1 j with
        | none => rfl
        | some c2 => simp only [Option.map_some', if_neg hne]

theorem simulate_flow_reduction (s : Controller) (data : Flat)
    (act : List Key) (d : ℚ) (rng : Nat → Nat) (dataF : Flat)
    (hF : 0 ≤ pyInt (s.clearance_rate * d)) (hnd : act.Nodup)
    (hNN : NonNegFlat data) (h : simulate_flow s data act d rng = some dataF)
    (k : Key) (hk : k ∈ act) (c : FlatCell) (hc : alook data k = some c) :
    ∀ cF, alook dataF k = some cF →
      c.normal - pyInt (s.clearance_rate * d) ≤ cF.normal := by
  unfold simulate_flow at h
  obtain ⟨cleared, hfold, h⟩ := bind_some h
  obtain ⟨res, hrnd, h⟩ := bind_some h
  cases Option.some.inj h
  obtain ⟨-, -, hbound⟩ := flowFold_main s d hF act data cleared hnd hNN hfold
  intro cF hcF
  rw [rndFold_keep act rng (allKeys s) (cleared, 0) res hrnd k hk] at hcF
  have := hbound k c cF hc hcF
  rw [if_pos hk] at this
  exact this


/-- C8: flow-model clearance and transfer. For an active key `k` holding
`c` with `0 ≤ c.normal` and a nonnegative per-green clearance budget
`⌊clearance_rate * d⌋`: (1) one flow step removes exactly
`cleared = min(c.normal, ⌊clearance_rate * d⌋)` from `k` (when `k` is not
its own destination-straight key); (2) when `k` has a destination, the
step adds exactly `pushed = min(cleared, max(0, capacity − queued))` to
the destination lane's straight queue, and `pushed ≤ cleared`; (3) over a
whole `simulate_flow` cycle with a duplicate-free active set containing
`k`, the net reduction at `k` is at most `⌊clearance_rate * d⌋`. -/
theorem flow_clearance_transfer (s : Controller) (d : ℚ) (data : Flat)
    (k : Key) (c : FlatCell) (hc : alook data k = some c)
    (hF : 0 ≤ pyInt (s.clearance_rate * d)) :
    (∀ data', flowStep s d data k = some data' →
      (∀ dest, alook s.turn_map k = some dest → (dest, Mov.straight) ≠ k) →
      (alook data' k).map FlatCell.normal =
        some (c.normal - min c.normal (pyInt (s.clearance_rate * d)))) ∧
    (∀ dest dq cap cd data', alook s.turn_map k = some dest →
      (dest, Mov.straight) ≠ k →
      flowStep s d data k = some data' →
      destQ (setFlatNormal data k
        (max 0 (c.normal - min c.normal (pyInt (s.clearance_rate * d))))) dest =
        some dq →
      alook s.exit_capacity dest = some cap →
      alook data (dest, Mov.straight) = some cd →
      (alook data' (dest, Mov.straight)).map FlatCell.normal =
        some (cd.normal + min (min c.normal (pyInt (s.clearance_rate * d)))
          (max 0 (cap - dq))) ∧
      min (min c.normal (pyInt (s.clearance_rate * d))) (max 0 (cap - dq)) ≤
        min c.normal (pyInt (s.clearance_rate * d))) ∧
    (∀ act rng dataF, act.Nodup → k ∈ act → NonNegFlat data →
      simulate_flow s data act d rng = some dataF →
      ∀ cF, alook dataF k = some cF →
        c.normal - pyInt (s.clearance_rate * d) ≤ cF.normal) := by
  refine ⟨?_, ?_, ?_⟩
  · intro data' hstep hnd
    unfold flowStep at hstep
    obtain ⟨c0, hc0, hstep⟩ := bind_some hstep
    cases (Option.some.inj (hc.symm.trans hc0) : c = c0)
    cases htm : alook s.turn_map k with
    | none =>
        rw [htm] at hstep
        cases Option.some.inj hstep
        rw [alook_setFlatNormal, hc]
        simp only [Option.map_some']
        rw [if_pos trivial]
        show some (max 0 (c.normal - min c.normal (pyInt (s.clearance_rate * d)))) = _
        exact congrArg some (by omega)
    | some dest =>
        rw [htm] at hstep
        obtain ⟨dq, hdq, hstep⟩ := bind_some hstep
        obtain ⟨cap, hcap, hstep⟩ := bind_some hstep
        obtain ⟨cd, hcd, hstep⟩ := bind_some hstep
        cases Option.some.inj hstep
        have hne := hnd dest htm
        have hk1 : alook (setFlatNormal data k
            (max 0 (c.normal - min c.normal (pyInt (s.clearance_rate * d))))) k =
            some ⟨max 0 (c.normal - min c.normal (pyInt (s.clearance_rate * d))),
              c.emergency, c.wait⟩ := by
          rw [alook_setFlatNormal, hc]
          simp only [Option.map_some']
          rw [if_pos trivial]
        rw [alook_setFlatNormal, hk1]
        simp only [Option.map_some']
        rw [if_neg (fun hcon => hne hcon.symm)]
        show some (max 0 (c.normal - min c.normal (pyInt (s.clearance_rate * d)))) = _
        exact congrArg some (by omega)
  · intro dest dq cap cd data' htm hne hstep hdq hcap hcd
    unfold flowStep at hstep
    obtain ⟨c0, hc0, hstep⟩ := bind_some hstep
    cases (Option.some.inj (hc.symm.trans hc0) : c = c0)
    rw [htm] at hstep
    obtain ⟨dq1, hdq1, hstep⟩ := bind_some hstep
    obtain ⟨cap1, hcap1, hstep⟩ := bind_some hstep
    obtain ⟨cd1, hcd1, hstep⟩ := bind_some hstep
    cases Option.some.inj hstep
    cases (Option.some.inj (hdq.symm.trans hdq1) : dq = dq1)
    cases (Option.some.inj (hcap.symm.trans hcap1) : cap = cap1)
    have hcd1x : alook (setFlatNormal data k
        (max 0 (c.normal - min c.normal (pyInt (s.clearance_rate * d)))))
        (dest, Mov.straight) = some cd := by
      rw [alook_setFlatNormal, hcd]
      simp only [Option.map_some']
      rw [if_neg hne]
    cases (Option.some.inj (hcd1x.symm.trans hcd1) : cd = cd1)
    constructor
    · rw [alook_setFlatNormal, hcd1x]
      simp only [Option.map_some']
      rw [if_pos trivial]
    · exact min_le_left _ _
  · intro act rng dataF hnd hk hNN hsim cF hcF
    exact simulate_flow_reduction s data act d rng dataF hF hnd hNN hsim k hk
      c hc cF hcF

/-- Witness for C8 at a concrete two-lane state: with clearance budget
`⌊3 * 2⌋ = 6`, the step at `("A", straight)` clears all 5 vehicles and
pushes all 5 onto `("B", straight)`, which goes from 5 to 10. -/
theorem flow_clearance_transfer_witness :
    optHolds (flowStep sW8 2 dataW8 ("A", Mov.straight)) (fun data' =>
      (alook data' ("A", Mov.straight)).map FlatCell.normal = some 0 ∧
      (alook data' ("B", Mov.straight)).map FlatCell.normal = some 10) := by
  obtain ⟨p, hp⟩ := Option.isSome_iff_exists.mp
    (by with_unfolding_all rfl :
      (flowStep sW8 2 dataW8 ("A", Mov.straight)).isSome = true)
  rw [hp]
  show (alook p ("A", Mov.straight)).map FlatCell.normal = some 0 ∧
      (alook p ("B", Mov.straight)).map FlatCell.normal = some 10
  obtain ⟨H1, H2, -⟩ := flow_clearance_transfer sW8 2 dataW8
    ("A", Mov.straight) ⟨5, 0, 0⟩ (by with_unfolding_all rfl)
    (by with_unfolding_all decide)
  have htm : alook sW8.turn_map ("A", Mov.straight) = some "B" := by
    with_unfolding_all rfl
  constructor
  · rw [H1 p hp (fun dest hdest => by
      cases (Option.some.inj (htm.symm.trans hdest) : "B" = dest)
      decide)]
    with_unfolding_all rfl
  · rw [(H2 "B" 5 20 ⟨5, 0, 0⟩ p htm (by decide) hp
      (by with_unfolding_all rfl) (by with_unfolding_all rfl)
      (by with_unfolding_all rfl)).1]
    with_unfolding_all rfl

end Traffic
